import Mathlib

/-!
# remregs master (8-bit PIC): a shallow embedding of `remregs_master.c`

The C translation unit keeps its state in file-scope variables (`idx_in`,
`idx_out`, `UART_buffer`, `sync_state`) and talks to the EUSART2 peripheral
through special function registers.  Here that state is one record, `State`,
passed explicitly through every function.

Conventions of the embedding:

* machine integers are `Nat`; every place where the C code narrows to
  `uint8_t` carries an explicit `% 256`;
* what the outside world does is an oracle inside the state: `wire t` is what
  the receiver hardware delivers during the `t`-th blocking primitive
  (`__delay_ms` or the wait for `TRMT2` in `UART_putch`); the receive
  interrupt is serviced there, by running `remregs_UART_ISR`;
* the observable actions (bytes written to `TXREG2`, delays, watchdog
  clears) are appended to `trace`, oldest first;
* loops that the C code bounds by a counter are written by recursion on fuel
  and return `none` when the fuel runs out; `none` is also the result of a
  read outside the caller's data buffer.
-/

namespace Remregs

/-- UART circular buffer size (`BUFFER_SIZE`). -/
def BUFFER_SIZE : Nat := 32

/-- Opcode of the 8-bit register read. -/
def ROP_READ_8 : Nat := 0
/-- Opcode of the 16-bit register read. -/
def ROP_READ_16 : Nat := 1
/-- Opcode of the 32-bit register read. -/
def ROP_READ_32 : Nat := 2
/-- Opcode of the multibyte register read. -/
def ROP_READ_MB : Nat := 3
/-- Opcode of the 8-bit register write. -/
def ROP_WRITE_8 : Nat := 4
/-- Opcode of the 16-bit register write. -/
def ROP_WRITE_16 : Nat := 5
/-- Opcode of the 32-bit register write. -/
def ROP_WRITE_32 : Nat := 6
/-- Opcode of the multibyte register write. -/
def ROP_WRITE_MB : Nat := 7

/-- Acknowledge. -/
def ACK : Nat := 6
/-- Negative acknowledge. -/
def NAK : Nat := 15

/-- Maximum size of a multibyte register (declared in the source, used nowhere). -/
def MAX_MB_SIZE : Nat := 29

/-- One character offered by the receiver: the value read from `RCREG2` and
the framing error flag `FERR2` that goes with it. -/
structure RxChar where
  RCREG2 : Nat
  FERR2 : Bool
deriving DecidableEq

/-- What the receiver hardware does while the foreground code sits in one
blocking primitive: the characters that arrive (each raises `RC2IF`), and
whether the overrun flag `OERR2` gets raised. -/
structure Window where
  chars : List RxChar
  oerr : Bool
deriving DecidableEq

/-- Observable actions of the foreground code. -/
inductive Event where
  | tx (c : Nat)
  | delay (ms : Nat)
  | clrwdt
deriving DecidableEq

/-- The link context: the file-scope variables of `remregs_master.c`, the
special function registers it touches, the oracle for the receiver and the
log of observable actions. -/
structure State where
  /-- Read cursor: `UART_getch` takes bytes from here. -/
  idx_in : Nat
  /-- Write cursor: `remregs_UART_ISR` stores bytes here. -/
  idx_out : Nat
  UART_buffer : Nat → Nat
  /-- Synchronization state (`__bit`): `true` is Synced. -/
  sync_state : Bool
  OERR2 : Bool
  CREN2 : Bool
  RC2IE : Bool
  GIE : Bool
  /-- Receiver oracle: `wire t` is delivered during the `t`-th blocking primitive. -/
  wire : Nat → Window
  /-- Number of blocking primitives executed so far. -/
  now : Nat
  trace : List Event

/-- The bytes written to `TXREG2`, in order. -/
def txBytes : List Event → List Nat
  | [] => []
  | Event.tx c :: es => c :: txBytes es
  | _ :: es => txBytes es

/-- Macro `UART_kbhit()`: is there anything waiting in the UART receive buffer? -/
def UART_kbhit (s : State) : Bool := s.idx_in != s.idx_out

/-- Function `remregs_UART_ISR`: the loop `while (RC2IF)` runs once per pending
character; a character without framing error is stored at `idx_out`, which
is then incremented (as `uint8_t`) and reduced modulo `BUFFER_SIZE`; a
character with framing error is read and dropped. -/
def remregs_UART_ISR : List RxChar → State → State
  | [], s => s
  | c :: pending, s =>
    if c.FERR2 = false then
      let s1 : State :=
        { s with
          UART_buffer := fun i => if i = s.idx_out then c.RCREG2 % 256 else s.UART_buffer i
          idx_out := (s.idx_out + 1) % 256 }
      remregs_UART_ISR pending { s1 with idx_out := s1.idx_out % BUFFER_SIZE }
    else
      remregs_UART_ISR pending s

/-- One blocking primitive seen from the receiver: the characters of the
current window are handled by the interrupt routine, the overrun flag may be
raised, and the window counter advances. -/
def rx_window (s : State) : State :=
  let w := s.wire s.now
  let s1 := remregs_UART_ISR w.chars s
  { s1 with OERR2 := s1.OERR2 || w.oerr, now := s1.now + 1 }

/-- Macro `__delay_ms(ms)`: a blocking delay, during which interrupts are serviced. -/
def __delay_ms (ms : Nat) (s : State) : State :=
  rx_window { s with trace := s.trace ++ [Event.delay ms] }

/-- Macro `CLRWDT()`: service the watchdog. -/
def CLRWDT (s : State) : State :=
  { s with trace := s.trace ++ [Event.clrwdt] }

/-- Function `UART_clear_oerr`: when `OERR2` is set, the receiver is restarted inside
a critical section (`di(); CREN2 = 0; CREN2 = 1; RC2IE = 1; ei();`);
clearing `CREN2` is what resets `OERR2` in the peripheral. -/
def UART_clear_oerr (s : State) : State :=
  if s.OERR2 = true then
    { s with GIE := true, CREN2 := true, RC2IE := true, OERR2 := false }
  else s

/-- The `while (idx_in == idx_out)` loop of `UART_getch` and the read that
follows it; `timer` is the `uint8_t` counter. -/
def UART_getch_loop : Nat → Nat → State → Option (Nat × State)
  | 0, _, _ => none
  | fuel + 1, timer, s =>
    if s.idx_in = s.idx_out then
      let timer := (timer + 1) % 256
      let s := __delay_ms 10 s
      if timer = 200 then
        some (0xff, s)
      else
        UART_getch_loop fuel timer (CLRWDT (UART_clear_oerr s))
    else
      let data := s.UART_buffer s.idx_in
      let s : State := { s with idx_in := (s.idx_in + 1) % 256 }
      some (data, { s with idx_in := s.idx_in % BUFFER_SIZE })

/-- Function `UART_getch`: the Byte Reader.  The loop returns within 200 iterations
(see `UART_getch_total`), so 200 units of fuel are always enough. -/
def UART_getch (s : State) : Option (Nat × State) :=
  UART_getch_loop 200 0 s

/-- The `for` loop of `UART_read`: `n` bytes still to read, the next one
goes to `buf[i]`. -/
def UART_read_loop : Nat → Nat → (Nat → Nat) → State → Option ((Nat → Nat) × State)
  | 0, _, buf, s => some (buf, s)
  | n + 1, i, buf, s =>
    match UART_getch s with
    | none => none
    | some (b, s) => UART_read_loop n (i + 1) (fun j => if j = i then b else buf j) s

/-- Function `UART_read(buf, size)`: `size` calls of `UART_getch` into `buf[0..size)`;
the returned bit is always 1. -/
def UART_read (buf : Nat → Nat) (size : Nat) (s : State) : Option (Bool × (Nat → Nat) × State) :=
  match UART_read_loop size 0 buf s with
  | none => none
  | some (buf, s) => some (true, buf, s)

/-- Function `UART_putch(c)`: wait for `TRMT2`, then write `c` (a `uint8_t`) to `TXREG2`. -/
def UART_putch (c : Nat) (s : State) : State :=
  let s := rx_window s
  { s with trace := s.trace ++ [Event.tx (c % 256)] }

/-- The loop `for (i = 0; i < n; i++) UART_putch(c);`. -/
def UART_putch_rep : Nat → Nat → State → State
  | 0, _, s => s
  | n + 1, c, s => UART_putch_rep n c (UART_putch c s)

/-- The `do ... while (b != 0xAA && b != 0x55)` loop of `remregs_sync`;
`timer` and `b` are its `uint8_t` variables. -/
def remregs_sync_loop : Nat → Nat → Nat → State → Option (Bool × State)
  | 0, _, _, _ => none
  | fuel + 1, timer, b, s =>
    let s := __delay_ms 1 s
    if UART_kbhit s = true then
      match UART_getch s with
      | none => none
      | some (b, s) =>
        if b ≠ 0xAA ∧ b ≠ 0x55 then remregs_sync_loop fuel timer b s
        else some (true, { s with sync_state := true })
    else
      let timer := (timer + 1) % 256
      let s := CLRWDT s
      if timer = 250 then
        some (false, s)
      else if b ≠ 0xAA ∧ b ≠ 0x55 then remregs_sync_loop fuel timer b s
      else some (true, { s with sync_state := true })

/-- Function `remregs_sync`: the handshake.  `fuel` bounds the number of polling
iterations the model is willing to follow. -/
def remregs_sync (fuel : Nat) (s : State) : Option (Bool × State) :=
  let s : State := { s with sync_state := false }
  let s := UART_putch_rep 24 0xff s
  let s := UART_putch 0xaa s
  remregs_sync_loop fuel 0 0 s

/-- The loop `for (i = 0; i < len; i++) UART_putch(data[i]);` of `reg_op`:
`n` bytes still to send, the next one is `data[i]`. -/
def reg_op_data : Nat → Nat → List Nat → State → Option State
  | 0, _, _, s => some s
  | n + 1, i, data, s =>
    match data[i]? with
    | none => none
    | some d => reg_op_data n (i + 1) data (UART_putch d s)

/-- The block of `reg_op` that "sends the request (2-byte opcode/address
plus data if any)". -/
def reg_op_request (op addr : Nat) (data : List Nat) (len : Nat) (s : State) : Option State :=
  let s := UART_putch ((op <<< 2) ||| ((addr &&& 0x300) >>> 8)) s
  let s := UART_putch (addr &&& 0xff) s
  let s := if op = ROP_WRITE_MB then UART_putch len s else s
  reg_op_data len 0 data s

/-- The part of `reg_op` after the synchronization check: send the request,
then read and interpret the response byte. -/
def reg_op_exchange (op addr : Nat) (data : List Nat) (len : Nat) (s : State) :
    Option (Bool × State) :=
  match reg_op_request op addr data len s with
  | none => none
  | some s =>
    match UART_getch s with
    | none => none
    | some (r, s) =>
      if r = 0xff then
        some (false, { s with sync_state := false })
      else if r = ACK then
        some (true, s)
      else
        some (false, s)

/-- Function `reg_op(op, addr, data, len)`. -/
def reg_op (fuel : Nat) (op addr : Nat) (data : List Nat) (len : Nat) (s : State) :
    Option (Bool × State) :=
  if s.sync_state = false then
    match remregs_sync fuel s with
    | none => none
    | some (false, s) => some (false, s)
    | some (true, s) => reg_op_exchange op addr data len s
  else
    reg_op_exchange op addr data len s

/-- Function `get_reg_8(addr)`. -/
def get_reg_8 (fuel : Nat) (addr : Nat) (s : State) : Option (Nat × State) :=
  match reg_op fuel ROP_READ_8 addr [] 0 s with
  | none => none
  | some (false, s) => some (0xff, s)
  | some (true, s) => UART_getch s

/-- Function `get_reg_16(addr)`: `res` is filled through `(uint8_t*) &res`, least
significant byte first (XC8 stores multi-byte objects little-endian). -/
def get_reg_16 (fuel : Nat) (addr : Nat) (s : State) : Option (Nat × State) :=
  match reg_op fuel ROP_READ_16 addr [] 0 s with
  | none => none
  | some (false, s) => some (0xff, s)
  | some (true, s) =>
    match UART_read (fun _ => 0) 2 s with
    | none => none
    | some (true, res, s) => some (res 0 + 256 * res 1, s)
    | some (false, _, s) => some (0xffff, s)

/-- Function `get_reg_32(addr)`. -/
def get_reg_32 (fuel : Nat) (addr : Nat) (s : State) : Option (Nat × State) :=
  match reg_op fuel ROP_READ_32 addr [] 0 s with
  | none => none
  | some (false, s) => some (0xff, s)
  | some (true, s) =>
    match UART_read (fun _ => 0) 4 s with
    | none => none
    | some (true, res, s) =>
      some (res 0 + 256 * res 1 + 65536 * res 2 + 16777216 * res 3, s)
    | some (false, _, s) => some (0xffffffff, s)

/-- Function `get_reg_mb(addr, data, len)`: `data` and `len` are the contents of the
caller's buffer and length variable on entry; the result carries their
contents on return. -/
def get_reg_mb (fuel : Nat) (addr : Nat) (data : Nat → Nat) (len : Nat) (s : State) :
    Option (Bool × (Nat → Nat) × Nat × State) :=
  match reg_op fuel ROP_READ_MB addr [] 0 s with
  | none => none
  | some (false, s) => some (false, data, len, s)
  | some (true, s) =>
    match UART_getch s with
    | none => none
    | some (len, s) =>
      match UART_read data len s with
      | none => none
      | some (r, data, s) => some (r, data, len, s)

/-- The object representation of an `n`-byte unsigned value, as seen through
a `uint8_t*` (little-endian). -/
def le_bytes : Nat → Nat → List Nat
  | 0, _ => []
  | n + 1, v => v % 256 :: le_bytes n (v / 256)

/-- Function `set_reg_8(addr, val)`. -/
def set_reg_8 (fuel : Nat) (addr val : Nat) (s : State) : Option (Bool × State) :=
  reg_op fuel ROP_WRITE_8 addr (le_bytes 1 val) 1 s

/-- Function `set_reg_16(addr, val)`. -/
def set_reg_16 (fuel : Nat) (addr val : Nat) (s : State) : Option (Bool × State) :=
  reg_op fuel ROP_WRITE_16 addr (le_bytes 2 val) 2 s

/-- Function `set_reg_32(addr, val)`. -/
def set_reg_32 (fuel : Nat) (addr val : Nat) (s : State) : Option (Bool × State) :=
  reg_op fuel ROP_WRITE_32 addr (le_bytes 4 val) 4 s

/-- Function `set_reg_mb(addr, data, len)`. -/
def set_reg_mb (fuel : Nat) (addr : Nat) (data : List Nat) (len : Nat) (s : State) :
    Option (Bool × State) :=
  reg_op fuel ROP_WRITE_MB addr data len s


/-! ## Vocabulary of the statements

Nothing below is code of the repository: these definitions name the
situations, traces and example states the theorems speak about. -/

/-- The wire delivers no character during the `n` windows that start at `s.now`. -/
def Quiet (s : State) (n : Nat) : Prop :=
  ∀ t, s.now ≤ t → t < s.now + n → (s.wire t).chars = []

/-- Silence over finitely many windows can be checked window by window. -/
instance Quiet.decidable (s : State) (n : Nat) : Decidable (Quiet s n) :=
  decidable_of_iff (∀ k, k < n → (s.wire (s.now + k)).chars = [])
    ⟨fun h t h1 h2 => by
      have := h (t - s.now) (by omega)
      rwa [show s.now + (t - s.now) = t by omega] at this,
     fun h k hk => h (s.now + k) (by omega) (by omega)⟩

/-- The trace of `n` polls of the Byte Reader that find nothing, the last of
which gives up. -/
def getch_timeout_trace : Nat → List Event
  | 0 => []
  | 1 => [Event.delay 10]
  | n + 2 => Event.delay 10 :: Event.clrwdt :: getch_timeout_trace (n + 1)

/-- The handshake preamble: 24 bytes `0xff`, then `0xaa`. -/
def preamble : List Nat := List.replicate 24 0xff ++ [0xaa]

/-- The state after `k` polling iterations of `remregs_sync` that find nothing. -/
def sync_idle : Nat → State → State
  | 0, s => s
  | k + 1, s => sync_idle k (CLRWDT (__delay_ms 1 s))

/-- The trace of `k` polling iterations of `remregs_sync` that find nothing:
each is a delay of 1 ms followed by one watchdog clear. -/
def sync_idle_trace : Nat → List Event
  | 0 => []
  | k + 1 => Event.delay 1 :: Event.clrwdt :: sync_idle_trace k

/-- The first two bytes `reg_op` writes to `TXREG2`, read off the code: the
two arguments of `UART_putch`, narrowed to `uint8_t`. -/
def reg_op_header (op addr : Nat) : List Nat :=
  [((op <<< 2) ||| ((addr &&& 0x300) >>> 8)) % 256, (addr &&& 0xff) % 256]

/-- The bytes `reg_op` writes to `TXREG2` for one request, read off the code:
each argument of `UART_putch` narrowed to `uint8_t`. -/
def reg_op_frame (op addr : Nat) (data : List Nat) (len : Nat) : List Nat :=
  reg_op_header op addr ++ (if op = ROP_WRITE_MB then [len % 256] else []) ++
    (data.take len).map (fun d => d % 256)

/-- The frame as the specification words it: header byte
`(op << 2) | (addr >> 8)`, address byte `addr & 0xFF`, the length byte only
for `WriteMultibyte`, then the payload. -/
def spec_frame (op addr : Nat) (payload : List Nat) : List Nat :=
  [(op <<< 2) ||| (addr >>> 8), addr &&& 0xFF] ++
    (if op = 7 then [payload.length] else []) ++ payload

/-- A wire on which nothing ever arrives. -/
def wire_silent : Nat → Window := fun _ => ⟨[], false⟩

/-- A wire that delivers the characters `bytes`, free of framing errors,
during window `t` and nothing otherwise. -/
def wire_at (t : Nat) (bytes : List Nat) : Nat → Window :=
  fun u => if u = t then ⟨bytes.map (fun b => ⟨b, false⟩), false⟩ else ⟨[], false⟩

/-- The state after reset: both cursors 0, link Unsynced, nothing logged. -/
def init_state (wire : Nat → Window) : State :=
  { idx_in := 0, idx_out := 0, UART_buffer := fun _ => 0, sync_state := false,
    OERR2 := false, CREN2 := true, RC2IE := true, GIE := true,
    wire := wire, now := 0, trace := [] }

/-- A Synced link with an empty receive buffer. -/
def synced_state (wire : Nat → Window) : State :=
  { init_state wire with sync_state := true }

/-- The state in which a request has been sent from `s` (`s` itself if the
request reads outside `data`). -/
def after_request (op addr : Nat) (data : List Nat) (len : Nat) (s : State) : State :=
  (reg_op_request op addr data len s).getD s

/-- The state in which one call of `UART_getch` from `s` returns. -/
def after_getch (s : State) : State :=
  ((UART_getch s).getD (0, s)).2

/-- The wire delivers no character from window `s.now` on. -/
def Silent (s : State) : Prop :=
  ∀ t, s.now ≤ t → (s.wire t).chars = []

/-- The situation "the peer sends ACK but no payload byte arrives", for the
read request `op` to `addr` issued in state `s`: the response byte read
after the request is ACK, the receive buffer is empty afterwards, and the
wire delivers nothing from then on. -/
def AckThenSilence (op addr : Nat) (s : State) : Prop :=
  ∃ s1 s2, reg_op_request op addr [] 0 s = some s1 ∧ UART_getch s1 = some (ACK, s2) ∧
    s2.idx_in = s2.idx_out ∧ Silent s2

/-- The next register operation needs no handshake: whatever it is, it
returns having transmitted its own frame and nothing before it. -/
def NextNeedsNoHandshake (s : State) : Prop :=
  ∀ (fuel op addr : Nat) (data : List Nat) (len : Nat), len ≤ data.length →
    ∃ ok s', reg_op fuel op addr data len s = some (ok, s') ∧
      txBytes s'.trace = txBytes s.trace ++ reg_op_frame op addr data len

/-- The byte-arrival handler is invoked once for each byte of `bytes`, none
with a framing error, with no pop in between. -/
def push_all (bytes : List Nat) (s : State) : State :=
  bytes.foldl (fun st b => remregs_UART_ISR [⟨b, false⟩] st) s

/-- The bytes returned by `n` successive calls of `UART_getch`. -/
def UART_getch_n : Nat → State → Option (List Nat × State)
  | 0, s => some ([], s)
  | n + 1, s =>
    match UART_getch s with
    | none => none
    | some (b, s1) =>
      match UART_getch_n n s1 with
      | none => none
      | some (bs, s2) => some (b :: bs, s2)

/-- A state whose cursors sit two slots before the end of the buffer, so
that a few pushes wrap around. -/
def wrap_state : State :=
  { init_state wire_silent with idx_in := 30, idx_out := 30 }

/-- The state in which `remregs_sync` returns from `s` (`s` itself if the
fuel runs out). -/
def after_sync (fuel : Nat) (s : State) : State :=
  ((remregs_sync fuel s).getD (false, s)).2

/-- A wire that delivers `first` during window `t` and `second` during the
window after it, free of framing errors, and nothing otherwise. -/
def wire_two (t : Nat) (first second : List Nat) : Nat → Window :=
  fun u =>
    if u = t then ⟨first.map (fun b => ⟨b, false⟩), false⟩
    else if u = t + 1 then ⟨second.map (fun b => ⟨b, false⟩), false⟩
    else ⟨[], false⟩

/-- The number of bytes the Byte Reader can pop without waiting: calls of
`UART_getch` are counted for as long as `UART_kbhit` holds (at most `fuel`
of them). -/
def ready_count : Nat → State → Nat
  | 0, _ => 0
  | fuel + 1, s =>
    if UART_kbhit s = true then
      match UART_getch s with
      | none => 0
      | some (_, s') => 1 + ready_count fuel s'
    else 0

/-- The characters the wire delivers during the `k` windows that start at `t`. -/
def arrived (w : Nat → Window) : Nat → Nat → List RxChar
  | _, 0 => []
  | t, k + 1 => (w t).chars ++ arrived w (t + 1) k

/-- The states reachable from an initial state (both cursors 0) by any
interleaving of runs of the byte-arrival handler and calls of the Byte
Reader. -/
inductive Reachable : State → Prop where
  | init (s : State) : s.idx_in = 0 → s.idx_out = 0 → Reachable s
  | isr (s : State) (pending : List RxChar) :
      Reachable s → Reachable (remregs_UART_ISR pending s)
  | getch (s s' : State) (r : Nat) :
      Reachable s → UART_getch s = some (r, s') → Reachable s'

/-- The number of unread bytes as the cursors tell it: the distance from the
read cursor to the write cursor modulo 32. -/
def occupancy (s : State) : Nat := (s.idx_out + 32 - s.idx_in) % 32

/-- A wire that is silent while the preamble goes out and then delivers one
byte `0x00` (no handshake reply) in each of the next `n` windows. -/
def wire_garbage (n : Nat) : Nat → Window :=
  fun t => if 25 ≤ t ∧ t < 25 + n then ⟨[⟨0, false⟩], false⟩ else ⟨[], false⟩

/-- A wire that is silent while the preamble goes out and then delivers one
byte `0x00` in every window, for ever. -/
def wire_flood : Nat → Window :=
  fun t => if 25 ≤ t then ⟨[⟨0, false⟩], false⟩ else ⟨[], false⟩

/-! ## Frame lemmas: what each primitive leaves unchanged -/

theorem txBytes_append (a b : List Event) : txBytes (a ++ b) = txBytes a ++ txBytes b := by
  induction a with
  | nil => rfl
  | cons e es ih => cases e <;> simp [txBytes, ih]

theorem ISR_frame (cs : List RxChar) (s : State) :
    (remregs_UART_ISR cs s).idx_in = s.idx_in ∧
    (remregs_UART_ISR cs s).sync_state = s.sync_state ∧
    (remregs_UART_ISR cs s).OERR2 = s.OERR2 ∧
    (remregs_UART_ISR cs s).wire = s.wire ∧
    (remregs_UART_ISR cs s).now = s.now ∧
    (remregs_UART_ISR cs s).trace = s.trace := by
  induction cs generalizing s with
  | nil => simp [remregs_UART_ISR]
  | cons c cs ih =>
    unfold remregs_UART_ISR
    split
    · have h := ih { s with
          UART_buffer := fun i => if i = s.idx_out then c.RCREG2 % 256 else s.UART_buffer i
          idx_out := (s.idx_out + 1) % 256 % BUFFER_SIZE }
      simpa using h
    · exact ih s

theorem ISR_nil (s : State) : remregs_UART_ISR [] s = s := rfl

theorem ISR_append (xs ys : List RxChar) (s : State) :
    remregs_UART_ISR (xs ++ ys) s = remregs_UART_ISR ys (remregs_UART_ISR xs s) := by
  induction xs generalizing s with
  | nil => rfl
  | cons c cs ih =>
    simp only [List.cons_append, remregs_UART_ISR]
    split <;> exact ih _

theorem rx_window_frame (s : State) :
    (rx_window s).idx_in = s.idx_in ∧
    (rx_window s).sync_state = s.sync_state ∧
    (rx_window s).wire = s.wire ∧
    (rx_window s).now = s.now + 1 ∧
    (rx_window s).trace = s.trace := by
  have h := ISR_frame (s.wire s.now).chars s
  simp [rx_window, h.1, h.2.1, h.2.2.2.1, h.2.2.2.2.1, h.2.2.2.2.2]

theorem UART_putch_frame (c : Nat) (s : State) :
    (UART_putch c s).idx_in = s.idx_in ∧
    (UART_putch c s).sync_state = s.sync_state ∧
    (UART_putch c s).wire = s.wire ∧
    (UART_putch c s).now = s.now + 1 ∧
    (UART_putch c s).trace = s.trace ++ [Event.tx (c % 256)] := by
  have h := rx_window_frame s
  simp [UART_putch, h.1, h.2.1, h.2.2.1, h.2.2.2.1, h.2.2.2.2]

theorem delay_frame (ms : Nat) (s : State) :
    (__delay_ms ms s).idx_in = s.idx_in ∧
    (__delay_ms ms s).sync_state = s.sync_state ∧
    (__delay_ms ms s).wire = s.wire ∧
    (__delay_ms ms s).now = s.now + 1 ∧
    (__delay_ms ms s).trace = s.trace ++ [Event.delay ms] := by
  have h := rx_window_frame { s with trace := s.trace ++ [Event.delay ms] }
  simpa [__delay_ms] using h


theorem CLRWDT_clear_oerr_frame (s : State) :
    (CLRWDT (UART_clear_oerr s)).idx_in = s.idx_in ∧
    (CLRWDT (UART_clear_oerr s)).idx_out = s.idx_out ∧
    (CLRWDT (UART_clear_oerr s)).UART_buffer = s.UART_buffer ∧
    (CLRWDT (UART_clear_oerr s)).sync_state = s.sync_state ∧
    (CLRWDT (UART_clear_oerr s)).wire = s.wire ∧
    (CLRWDT (UART_clear_oerr s)).now = s.now ∧
    (CLRWDT (UART_clear_oerr s)).trace = s.trace ++ [Event.clrwdt] := by
  unfold CLRWDT UART_clear_oerr
  split <;> simp

theorem rx_window_quiet (s : State) (h : (s.wire s.now).chars = []) :
    (rx_window s).idx_out = s.idx_out ∧ (rx_window s).UART_buffer = s.UART_buffer := by
  simp [rx_window, h, remregs_UART_ISR]

theorem delay_quiet (ms : Nat) (s : State) (h : (s.wire s.now).chars = []) :
    (__delay_ms ms s).idx_out = s.idx_out ∧ (__delay_ms ms s).UART_buffer = s.UART_buffer := by
  have := rx_window_quiet { s with trace := s.trace ++ [Event.delay ms] } h
  simpa [__delay_ms] using this

theorem UART_putch_quiet (c : Nat) (s : State) (h : (s.wire s.now).chars = []) :
    (UART_putch c s).idx_out = s.idx_out ∧ (UART_putch c s).UART_buffer = s.UART_buffer := by
  have := rx_window_quiet s h
  simpa [UART_putch] using this

/-! ## The Byte Reader -/

theorem UART_getch_loop_frame (fuel timer : Nat) (s : State) (r : Nat) (s' : State)
    (h : UART_getch_loop fuel timer s = some (r, s')) :
    s'.sync_state = s.sync_state ∧ s'.wire = s.wire ∧
    txBytes s'.trace = txBytes s.trace ∧ s.now ≤ s'.now := by
  induction fuel generalizing timer s with
  | zero => simp [UART_getch_loop] at h
  | succ n ih =>
    unfold UART_getch_loop at h
    have hd := delay_frame 10 s
    have hc := CLRWDT_clear_oerr_frame (__delay_ms 10 s)
    split at h
    · simp only at h
      split at h
      · simp only [Option.some.injEq, Prod.mk.injEq] at h
        obtain ⟨-, rfl⟩ := h
        simp [hd.2.1, hd.2.2.1, hd.2.2.2.1, hd.2.2.2.2, txBytes_append, txBytes]
      · have := ih _ _ h
        simp only [hc.2.2.2.1, hc.2.2.2.2.1, hc.2.2.2.2.2.1, hc.2.2.2.2.2.2, hd.2.1, hd.2.2.1,
          hd.2.2.2.1, hd.2.2.2.2, txBytes_append, txBytes, List.append_nil] at this
        refine ⟨this.1, this.2.1, this.2.2.1, ?_⟩
        omega
    · simp only [Option.some.injEq, Prod.mk.injEq] at h
      obtain ⟨-, rfl⟩ := h
      simp

theorem UART_getch_frame (s : State) (r : Nat) (s' : State) (h : UART_getch s = some (r, s')) :
    s'.sync_state = s.sync_state ∧ s'.wire = s.wire ∧
    txBytes s'.trace = txBytes s.trace ∧ s.now ≤ s'.now :=
  UART_getch_loop_frame 200 0 s r s' h

theorem UART_getch_loop_total (fuel timer : Nat) (s : State)
    (ht : timer < 200) (hf : 200 ≤ fuel + timer) :
    ∃ r s', UART_getch_loop fuel timer s = some (r, s') := by
  induction fuel generalizing timer s with
  | zero => omega
  | succ n ih =>
    unfold UART_getch_loop
    split
    · simp only
      split
      · exact ⟨_, _, rfl⟩
      · rename_i hne
        have h1 : (timer + 1) % 256 = timer + 1 := by omega
        rw [h1] at hne ⊢
        exact ih _ _ (by omega) (by omega)
    · exact ⟨_, _, rfl⟩

/-- The Byte Reader always returns. -/
theorem UART_getch_total (s : State) : ∃ r s', UART_getch s = some (r, s') :=
  UART_getch_loop_total 200 0 s (by omega) (by omega)

/-- A byte that is already buffered is returned at once. -/
theorem UART_getch_ready (s : State) (h : s.idx_in ≠ s.idx_out) :
    UART_getch s =
      some (s.UART_buffer s.idx_in, { s with idx_in := (s.idx_in + 1) % 256 % BUFFER_SIZE }) := by
  simp [UART_getch, UART_getch_loop, h]

theorem UART_getch_loop_quiet (n : Nat) :
    ∀ (fuel timer : Nat) (s : State), timer + (n + 1) = 200 → n + 1 ≤ fuel →
      s.idx_in = s.idx_out → Quiet s (n + 1) →
      ∃ s', UART_getch_loop fuel timer s = some (0xff, s') ∧
        s'.idx_in = s.idx_in ∧ s'.idx_out = s.idx_out ∧ s'.UART_buffer = s.UART_buffer ∧
        s'.sync_state = s.sync_state ∧ s'.wire = s.wire ∧ s'.now = s.now + (n + 1) ∧
        s'.trace = s.trace ++ getch_timeout_trace (n + 1) := by
  induction n with
  | zero =>
    intro fuel timer s ht hf he hq
    obtain ⟨f, rfl⟩ : ∃ f, fuel = f + 1 := ⟨fuel - 1, by omega⟩
    have hd := delay_frame 10 s
    have hq0 := delay_quiet 10 s (hq s.now (le_refl _) (by omega))
    have h1 : (timer + 1) % 256 = 200 := by omega
    refine ⟨__delay_ms 10 s, ?_, hd.1, hq0.1, hq0.2, hd.2.1, hd.2.2.1, hd.2.2.2.1, ?_⟩
    · simp [UART_getch_loop, he, h1]
    · simp [hd.2.2.2.2, getch_timeout_trace]
  | succ n ih =>
    intro fuel timer s ht hf he hq
    obtain ⟨f, rfl⟩ : ∃ f, fuel = f + 1 := ⟨fuel - 1, by omega⟩
    have hd := delay_frame 10 s
    have hq0 := delay_quiet 10 s (hq s.now (le_refl _) (by omega))
    have hc := CLRWDT_clear_oerr_frame (__delay_ms 10 s)
    have h1 : (timer + 1) % 256 = timer + 1 := by omega
    have h2 : ¬ (timer + 1 = 200) := by omega
    have hq' : Quiet (CLRWDT (UART_clear_oerr (__delay_ms 10 s))) (n + 1) := by
      intro t h3 h4
      rw [hc.2.2.2.2.2.1, hd.2.2.2.1] at h3 h4
      rw [hc.2.2.2.2.1, hd.2.2.1]
      exact hq t (by omega) (by omega)
    obtain ⟨s', hs', h⟩ := ih f (timer + 1) (CLRWDT (UART_clear_oerr (__delay_ms 10 s)))
      (by omega) (by omega) (by rw [hc.1, hc.2.1, hd.1, hq0.1, he]) hq'
    refine ⟨s', ?_, ?_⟩
    · rw [UART_getch_loop]
      simp only [he, if_true, h1, h2, if_false]
      exact hs'
    · rw [hc.1, hc.2.1, hc.2.2.1, hc.2.2.2.1, hc.2.2.2.2.1, hc.2.2.2.2.2.1, hc.2.2.2.2.2.2] at h
      rw [hd.1, hq0.1, hq0.2, hd.2.1, hd.2.2.1, hd.2.2.2.1, hd.2.2.2.2] at h
      refine ⟨h.1, h.2.1, h.2.2.1, h.2.2.2.1, h.2.2.2.2.1, ?_, ?_⟩
      · rw [h.2.2.2.2.2.1]; omega
      · rw [h.2.2.2.2.2.2]; simp [getch_timeout_trace]

/-- With an empty buffer and a silent wire the Byte Reader gives up after
200 delays of 10 ms and returns `0xff`, cursors and buffer untouched. -/
theorem UART_getch_quiet (s : State) (he : s.idx_in = s.idx_out) (hq : Quiet s 200) :
    ∃ s', UART_getch s = some (0xff, s') ∧
      s'.idx_in = s.idx_in ∧ s'.idx_out = s.idx_out ∧ s'.UART_buffer = s.UART_buffer ∧
      s'.sync_state = s.sync_state ∧ s'.wire = s.wire ∧ s'.now = s.now + 200 ∧
      s'.trace = s.trace ++ getch_timeout_trace 200 :=
  UART_getch_loop_quiet 199 200 0 s (by omega) (by omega) he hq


/-! ## The Link Synchronizer -/

theorem UART_putch_rep_frame (n c : Nat) (s : State) :
    (UART_putch_rep n c s).idx_in = s.idx_in ∧
    (UART_putch_rep n c s).sync_state = s.sync_state ∧
    (UART_putch_rep n c s).wire = s.wire ∧
    (UART_putch_rep n c s).now = s.now + n ∧
    (UART_putch_rep n c s).trace = s.trace ++ List.replicate n (Event.tx (c % 256)) := by
  induction n generalizing s with
  | zero => simp [UART_putch_rep]
  | succ n ih =>
    have hp := UART_putch_frame c s
    have h := ih (UART_putch c s)
    rw [hp.1, hp.2.1, hp.2.2.1, hp.2.2.2.1, hp.2.2.2.2] at h
    simp only [UART_putch_rep]
    refine ⟨h.1, h.2.1, h.2.2.1, ?_, ?_⟩
    · rw [h.2.2.2.1]; omega
    · rw [h.2.2.2.2]; simp [List.replicate_succ]

theorem UART_putch_rep_quiet (n c : Nat) (s : State) (hq : Quiet s n) :
    (UART_putch_rep n c s).idx_out = s.idx_out ∧
    (UART_putch_rep n c s).UART_buffer = s.UART_buffer := by
  induction n generalizing s with
  | zero => simp [UART_putch_rep]
  | succ n ih =>
    have hp := UART_putch_frame c s
    have hq0 := UART_putch_quiet c s (hq s.now (le_refl _) (by omega))
    have h := ih (UART_putch c s) (by
      intro t h1 h2
      rw [hp.2.2.2.1] at h1 h2
      rw [hp.2.2.1]
      exact hq t (by omega) (by omega))
    simp only [UART_putch_rep]
    rw [h.1, h.2, hq0.1, hq0.2]
    exact ⟨rfl, rfl⟩

theorem txBytes_replicate_tx (n c : Nat) :
    txBytes (List.replicate n (Event.tx c)) = List.replicate n c := by
  induction n with
  | zero => rfl
  | succ n ih => simp [List.replicate_succ, txBytes, ih]

theorem remregs_sync_loop_frame (fuel timer b : Nat) (s : State) (ok : Bool) (s' : State)
    (hs : s.sync_state = false)
    (h : remregs_sync_loop fuel timer b s = some (ok, s')) :
    txBytes s'.trace = txBytes s.trace ∧ s'.wire = s.wire ∧ s'.sync_state = ok := by
  induction fuel generalizing timer b s with
  | zero => simp [remregs_sync_loop] at h
  | succ n ih =>
    unfold remregs_sync_loop at h
    have hd := delay_frame 1 s
    simp only at h
    split at h
    · split at h
      · simp at h
      · rename_i r s1 hg
        have hg' := UART_getch_frame _ _ _ hg
        rw [hd.2.1, hd.2.2.1, hd.2.2.2.2, txBytes_append] at hg'
        simp only [txBytes, List.append_nil] at hg'
        split at h
        · have := ih _ _ _ (by rw [hg'.1, hs]) h
          rw [hg'.2.1, hg'.2.2.1] at this
          exact this
        · simp only [Option.some.injEq, Prod.mk.injEq] at h
          obtain ⟨rfl, rfl⟩ := h
          exact ⟨hg'.2.2.1, hg'.2.1, rfl⟩
    · have hc : txBytes (CLRWDT (__delay_ms 1 s)).trace = txBytes s.trace ∧
          (CLRWDT (__delay_ms 1 s)).wire = s.wire ∧
          (CLRWDT (__delay_ms 1 s)).sync_state = false := by
        simp [CLRWDT, hd.2.1, hd.2.2.1, hd.2.2.2.2, txBytes_append, txBytes, hs]
      split at h
      · simp only [Option.some.injEq, Prod.mk.injEq] at h
        obtain ⟨rfl, rfl⟩ := h
        exact hc
      · split at h
        · have := ih _ _ _ hc.2.2 h
          rw [hc.1, hc.2.1] at this
          exact this
        · simp only [Option.some.injEq, Prod.mk.injEq] at h
          obtain ⟨rfl, rfl⟩ := h
          exact ⟨hc.1, hc.2.1, rfl⟩

/-- Whatever the handshake returns, it has transmitted the preamble and
nothing else, and it leaves the link Synced exactly when it reports success. -/
theorem remregs_sync_frame (fuel : Nat) (s : State) (ok : Bool) (s' : State)
    (h : remregs_sync fuel s = some (ok, s')) :
    txBytes s'.trace = txBytes s.trace ++ preamble ∧ s'.wire = s.wire ∧ s'.sync_state = ok := by
  unfold remregs_sync at h
  simp only at h
  have hr := UART_putch_rep_frame 24 0xff { s with sync_state := false }
  have hp := UART_putch_frame 0xaa (UART_putch_rep 24 0xff { s with sync_state := false })
  have := remregs_sync_loop_frame _ _ _ _ _ _ (by rw [hp.2.1, hr.2.1]) h
  rw [hp.2.2.1, hr.2.2.1, hp.2.2.2.2, hr.2.2.2.2] at this
  simp only [txBytes_append, txBytes_replicate_tx, txBytes] at this
  refine ⟨?_, this.2.1, this.2.2⟩
  rw [this.1]
  simp [preamble]


theorem sync_poll_frame (s : State) (h : (s.wire s.now).chars = []) :
    (CLRWDT (__delay_ms 1 s)).idx_in = s.idx_in ∧
    (CLRWDT (__delay_ms 1 s)).idx_out = s.idx_out ∧
    (CLRWDT (__delay_ms 1 s)).UART_buffer = s.UART_buffer ∧
    (CLRWDT (__delay_ms 1 s)).sync_state = s.sync_state ∧
    (CLRWDT (__delay_ms 1 s)).wire = s.wire ∧
    (CLRWDT (__delay_ms 1 s)).now = s.now + 1 ∧
    (CLRWDT (__delay_ms 1 s)).trace = s.trace ++ [Event.delay 1, Event.clrwdt] := by
  have hd := delay_frame 1 s
  have hq0 := delay_quiet 1 s h
  simp [CLRWDT, hd.1, hq0.1, hq0.2, hd.2.1, hd.2.2.1, hd.2.2.2.1, hd.2.2.2.2]

theorem Quiet_step (s s1 : State) (k : Nat) (hq : Quiet s (k + 1)) (hw : s1.wire = s.wire)
    (hn : s1.now = s.now + 1) : Quiet s1 k := by
  intro t h1 h2
  rw [hn] at h1 h2
  rw [hw]
  exact hq t (by omega) (by omega)

theorem Quiet_mono (s : State) (k n : Nat) (hq : Quiet s n) (h : k ≤ n) : Quiet s k :=
  fun t h1 h2 => hq t h1 (by omega)

theorem Quiet_head (s : State) (k : Nat) (hq : Quiet s (k + 1)) : (s.wire s.now).chars = [] :=
  hq s.now (le_refl _) (by omega)

theorem sync_idle_frame (k : Nat) (s : State) (hq : Quiet s k) :
    (sync_idle k s).idx_in = s.idx_in ∧ (sync_idle k s).idx_out = s.idx_out ∧
    (sync_idle k s).UART_buffer = s.UART_buffer ∧
    (sync_idle k s).sync_state = s.sync_state ∧ (sync_idle k s).wire = s.wire ∧
    (sync_idle k s).now = s.now + k ∧
    (sync_idle k s).trace = s.trace ++ sync_idle_trace k := by
  induction k generalizing s with
  | zero => simp [sync_idle, sync_idle_trace]
  | succ k ih =>
    have hp := sync_poll_frame s (Quiet_head s k hq)
    have h := ih (CLRWDT (__delay_ms 1 s)) (Quiet_step s _ k hq hp.2.2.2.2.1 hp.2.2.2.2.2.1)
    rw [hp.1, hp.2.1, hp.2.2.1, hp.2.2.2.1, hp.2.2.2.2.1, hp.2.2.2.2.2.1, hp.2.2.2.2.2.2] at h
    simp only [sync_idle]
    refine ⟨h.1, h.2.1, h.2.2.1, h.2.2.2.1, h.2.2.2.2.1, ?_, ?_⟩
    · rw [h.2.2.2.2.2.1]; omega
    · rw [h.2.2.2.2.2.2]; simp [sync_idle_trace]

theorem remregs_sync_loop_idle (k : Nat) :
    ∀ (fuel timer b : Nat) (s : State), (b ≠ 0xAA ∧ b ≠ 0x55) → timer + k < 250 →
      s.idx_in = s.idx_out → Quiet s k →
      remregs_sync_loop (fuel + k) timer b s = remregs_sync_loop fuel (timer + k) b (sync_idle k s) := by
  induction k with
  | zero => intro fuel timer b s _ _ _ _; rfl
  | succ k ih =>
    intro fuel timer b s hb ht he hq
    have hd := delay_frame 1 s
    have hq0 := delay_quiet 1 s (Quiet_head s k hq)
    have hp := sync_poll_frame s (Quiet_head s k hq)
    have hk : UART_kbhit (__delay_ms 1 s) = false := by
      simp [UART_kbhit, hd.1, hq0.1, he]
    have h1 : (timer + 1) % 256 = timer + 1 := by omega
    have h2 : ¬ (timer + 1 = 250) := by omega
    have hstep : remregs_sync_loop (fuel + k + 1) timer b s =
        remregs_sync_loop (fuel + k) (timer + 1) b (CLRWDT (__delay_ms 1 s)) := by
      rw [remregs_sync_loop]
      simp only [hk, Bool.false_eq_true, if_false, h1, h2]
      rw [if_pos hb]
    have := ih fuel (timer + 1) b (CLRWDT (__delay_ms 1 s)) hb (by omega)
      (by rw [hp.1, hp.2.1, he]) (Quiet_step s _ k hq hp.2.2.2.2.1 hp.2.2.2.2.2.1)
    rw [show fuel + (k + 1) = fuel + k + 1 from rfl, hstep, this, sync_idle]
    congr 1
    omega

/-- The state in which the polling loop of `remregs_sync` starts. -/
theorem sync_start_frame (s : State) (hq : Quiet s 25) :
    let s0 := UART_putch 0xaa (UART_putch_rep 24 0xff { s with sync_state := false })
    s0.idx_in = s.idx_in ∧ s0.idx_out = s.idx_out ∧ s0.UART_buffer = s.UART_buffer ∧
    s0.sync_state = false ∧ s0.wire = s.wire ∧ s0.now = s.now + 25 ∧
    s0.trace = s.trace ++ List.replicate 24 (Event.tx 0xff) ++ [Event.tx 0xaa] := by
  have hr := UART_putch_rep_frame 24 0xff { s with sync_state := false }
  have hrq := UART_putch_rep_quiet 24 0xff { s with sync_state := false }
    (fun t h1 h2 => hq t h1 (by simp only at h2 ⊢; omega))
  have hp := UART_putch_frame 0xaa (UART_putch_rep 24 0xff { s with sync_state := false })
  have hpq := UART_putch_quiet 0xaa (UART_putch_rep 24 0xff { s with sync_state := false })
    (by rw [hr.2.2.1, hr.2.2.2.1]; exact hq _ (by simp) (by simp))
  simp only
  rw [hp.1, hpq.1, hpq.2, hp.2.1, hp.2.2.1, hp.2.2.2.1, hp.2.2.2.2,
    hr.1, hrq.1, hrq.2, hr.2.1, hr.2.2.1, hr.2.2.2.1, hr.2.2.2.2]
  simp

/-- Handshake timeout, in full: with an empty receive buffer and a wire that
stays silent for the 25 transmissions and the 250 polls, `remregs_sync`
returns 0 and its trace is the preamble followed by 250 times
(delay 1 ms, watchdog clear). -/
theorem remregs_sync_quiet (fuel : Nat) (s : State) (hf : 250 ≤ fuel)
    (he : s.idx_in = s.idx_out) (hq : Quiet s 275) :
    ∃ s', remregs_sync fuel s = some (false, s') ∧ s'.sync_state = false ∧
      s'.idx_in = s.idx_in ∧ s'.idx_out = s.idx_out ∧ s'.UART_buffer = s.UART_buffer ∧
      s'.wire = s.wire ∧ s'.now = s.now + 275 ∧
      s'.trace = s.trace ++ List.replicate 24 (Event.tx 0xff) ++ [Event.tx 0xaa] ++
        sync_idle_trace 250 := by
  have h0 := sync_start_frame s (fun t h1 h2 => hq t h1 (by omega))
  simp only at h0
  generalize hs0 : UART_putch 0xaa (UART_putch_rep 24 0xff { s with sync_state := false }) = s0
    at h0
  have hq0 : Quiet s0 250 := by
    intro t h1 h2
    rw [h0.2.2.2.2.2.1] at h1 h2
    rw [h0.2.2.2.2.1]
    exact hq t (by omega) (by omega)
  have hi := sync_idle_frame 250 s0 hq0
  obtain ⟨f, rfl⟩ : ∃ f, fuel = f + 1 + 249 := ⟨fuel - 250, by omega⟩
  have hl := remregs_sync_loop_idle 249 (f + 1) 0 0 s0 (by decide) (by omega)
    (by rw [h0.1, h0.2.1, he]) (fun t h1 h2 => hq0 t h1 (by omega))
  have hi9 := sync_idle_frame 249 s0 (fun t h1 h2 => hq0 t h1 (by omega))
  have hd := delay_frame 1 (sync_idle 249 s0)
  have hdq := delay_quiet 1 (sync_idle 249 s0)
    (by rw [hi9.2.2.2.2.1, hi9.2.2.2.2.2.1]; exact hq0 _ (by omega) (by omega))
  have hk : UART_kbhit (__delay_ms 1 (sync_idle 249 s0)) = false := by
    simp [UART_kbhit, hd.1, hdq.1, hi9.1, hi9.2.1, h0.1, h0.2.1, he]
  refine ⟨sync_idle 250 s0, ?_, ?_⟩
  · unfold remregs_sync
    simp only
    rw [hs0, hl, remregs_sync_loop]
    simp only [hk, Bool.false_eq_true, if_false]
    have : sync_idle 250 s0 = CLRWDT (__delay_ms 1 (sync_idle 249 s0)) := by
      have hgen : ∀ (k : Nat) (x : State),
          sync_idle (k + 1) x = CLRWDT (__delay_ms 1 (sync_idle k x)) := by
        intro k
        induction k with
        | zero => intro x; rfl
        | succ k ih => intro x; rw [sync_idle, ih]; rfl
      exact hgen 249 s0
    rw [this]
    rfl
  · rw [hi.1, hi.2.1, hi.2.2.1, hi.2.2.2.1, hi.2.2.2.2.1, hi.2.2.2.2.2.1, hi.2.2.2.2.2.2,
      h0.1, h0.2.1, h0.2.2.1, h0.2.2.2.1, h0.2.2.2.2.1, h0.2.2.2.2.2.1, h0.2.2.2.2.2.2]
    exact ⟨rfl, rfl, rfl, rfl, rfl, by omega, rfl⟩


theorem delay_one_char (ms : Nat) (s : State) (b : Nat)
    (h : (s.wire s.now).chars = [⟨b, false⟩]) :
    (__delay_ms ms s).idx_out = (s.idx_out + 1) % 256 % BUFFER_SIZE ∧
    (__delay_ms ms s).UART_buffer =
      (fun i => if i = s.idx_out then b % 256 else s.UART_buffer i) := by
  simp [__delay_ms, rx_window, h, remregs_UART_ISR]

/-- Successful handshake, in full: the receive buffer is empty, the wire is
silent during the 25 transmissions and the first `d < 250` polls, and the
next poll finds the single character `b`, which is `0xAA` or `0x55`. -/
theorem remregs_sync_reply (fuel d b : Nat) (s : State) (hd : d < 250) (hf : d + 1 ≤ fuel)
    (he : s.idx_in = s.idx_out) (hq : Quiet s (25 + d))
    (hw : (s.wire (s.now + 25 + d)).chars = [⟨b, false⟩]) (hb : b = 0xAA ∨ b = 0x55) :
    ∃ s', remregs_sync fuel s = some (true, s') ∧ s'.sync_state = true ∧
      s'.now = s.now + 25 + d + 1 ∧ s'.idx_in = s'.idx_out ∧
      s'.trace = s.trace ++ List.replicate 24 (Event.tx 0xff) ++ [Event.tx 0xaa] ++
        sync_idle_trace d ++ [Event.delay 1] := by
  have h0 := sync_start_frame s (Quiet_mono s 25 _ hq (by omega))
  simp only at h0
  generalize hs0 : UART_putch 0xaa (UART_putch_rep 24 0xff { s with sync_state := false }) = s0
    at h0
  have hq0 : Quiet s0 d := by
    intro t h1 h2
    rw [h0.2.2.2.2.2.1] at h1 h2
    rw [h0.2.2.2.2.1]
    exact hq t (by omega) (by omega)
  have hi := sync_idle_frame d s0 hq0
  obtain ⟨f, rfl⟩ : ∃ f, fuel = f + 1 + d := ⟨fuel - (d + 1), by omega⟩
  have hl := remregs_sync_loop_idle d (f + 1) 0 0 s0 (by decide) (by omega)
    (by rw [h0.1, h0.2.1, he]) hq0
  generalize hsd : sync_idle d s0 = sd at hi hl
  have hw' : (sd.wire sd.now).chars = [⟨b, false⟩] := by
    rw [hi.2.2.2.2.1, hi.2.2.2.2.2.1, h0.2.2.2.2.1, h0.2.2.2.2.2.1]; exact hw
  have hdf := delay_frame 1 sd
  have hdc := delay_one_char 1 sd b hw'
  have hio : sd.idx_in = sd.idx_out := by rw [hi.1, hi.2.1, h0.1, h0.2.1, he]
  have hne : (__delay_ms 1 sd).idx_in ≠ (__delay_ms 1 sd).idx_out := by
    rw [hdf.1, hdc.1, hio]
    simp only [BUFFER_SIZE]
    omega
  have hk : UART_kbhit (__delay_ms 1 sd) = true := by
    simp [UART_kbhit, hne]
  have hg := UART_getch_ready _ hne
  have hval : (__delay_ms 1 sd).UART_buffer (__delay_ms 1 sd).idx_in = b := by
    rw [hdc.2, hdf.1, hio]
    rcases hb with rfl | rfl <;> simp
  rw [hval] at hg
  have hnb : ¬ (b ≠ 0xAA ∧ b ≠ 0x55) := by
    rcases hb with rfl | rfl <;> simp
  refine ⟨{ ({ (__delay_ms 1 sd) with
      idx_in := ((__delay_ms 1 sd).idx_in + 1) % 256 % BUFFER_SIZE } : State) with
      sync_state := true }, ?_, ?_⟩
  · unfold remregs_sync
    simp only
    rw [hs0, hl, remregs_sync_loop]
    simp only [hk, if_true, hg]
    rw [if_neg hnb]
  · refine ⟨rfl, ?_, ?_, ?_⟩
    · show (__delay_ms 1 sd).now = _
      rw [hdf.2.2.2.1, hi.2.2.2.2.2.1, h0.2.2.2.2.2.1]
    · show ((__delay_ms 1 sd).idx_in + 1) % 256 % BUFFER_SIZE = (__delay_ms 1 sd).idx_out
      rw [hdf.1, hdc.1, hio]
    · show (__delay_ms 1 sd).trace = _
      rw [hdf.2.2.2.2, hi.2.2.2.2.2.2, h0.2.2.2.2.2.2]


/-! ## The Register Operation Engine -/

theorem reg_op_data_frame (n : Nat) :
    ∀ (i : Nat) (data : List Nat) (s : State), i + n ≤ data.length →
      ∃ s', reg_op_data n i data s = some s' ∧
        s'.idx_in = s.idx_in ∧ s'.sync_state = s.sync_state ∧ s'.wire = s.wire ∧
        s'.now = s.now + n ∧
        txBytes s'.trace = txBytes s.trace ++ ((data.drop i).take n).map (fun d => d % 256) := by
  induction n with
  | zero => intro i data s _; exact ⟨s, rfl, rfl, rfl, rfl, rfl, by simp⟩
  | succ n ih =>
    intro i data s h
    have hi : i < data.length := by omega
    have hp := UART_putch_frame data[i] s
    obtain ⟨s', hs', h1, h2, h3, h4, h5⟩ := ih (i + 1) data (UART_putch data[i] s) (by omega)
    refine ⟨s', ?_, ?_, ?_, ?_, ?_, ?_⟩
    · rw [reg_op_data, List.getElem?_eq_getElem hi]
      exact hs'
    · rw [h1, hp.1]
    · rw [h2, hp.2.1]
    · rw [h3, hp.2.2.1]
    · rw [h4, hp.2.2.2.1]; omega
    · rw [h5, hp.2.2.2.2, txBytes_append, List.drop_eq_getElem_cons hi, List.take_succ_cons,
        List.map_cons]
      simp [txBytes]

/-- Sending the request always succeeds when the caller's buffer holds `len`
bytes; it transmits `reg_op_frame` and touches neither the read cursor nor
the link state. -/
theorem reg_op_request_frame (op addr : Nat) (data : List Nat) (len : Nat) (s : State)
    (hlen : len ≤ data.length) :
    ∃ s', reg_op_request op addr data len s = some s' ∧
      s'.idx_in = s.idx_in ∧ s'.sync_state = s.sync_state ∧ s'.wire = s.wire ∧
      txBytes s'.trace = txBytes s.trace ++ reg_op_frame op addr data len := by
  unfold reg_op_request
  simp only
  have hp1 := UART_putch_frame ((op <<< 2) ||| ((addr &&& 0x300) >>> 8)) s
  generalize UART_putch ((op <<< 2) ||| ((addr &&& 0x300) >>> 8)) s = s1 at hp1 ⊢
  have hp2 := UART_putch_frame (addr &&& 0xff) s1
  generalize UART_putch (addr &&& 0xff) s1 = s2 at hp2 ⊢
  have hp3 := UART_putch_frame len s2
  by_cases hop : op = ROP_WRITE_MB
  · obtain ⟨s', hs', h1, h2, h3, -, h5⟩ := reg_op_data_frame len 0 data (UART_putch len s2)
      (by omega)
    refine ⟨s', ?_, ?_, ?_, ?_, ?_⟩
    · rw [if_pos hop]
      exact hs'
    · rw [h1, hp3.1, hp2.1, hp1.1]
    · rw [h2, hp3.2.1, hp2.2.1, hp1.2.1]
    · rw [h3, hp3.2.2.1, hp2.2.2.1, hp1.2.2.1]
    · rw [h5, hp3.2.2.2.2, hp2.2.2.2.2, hp1.2.2.2.2]
      simp [txBytes_append, txBytes, reg_op_frame, reg_op_header, hop]
  · obtain ⟨s', hs', h1, h2, h3, -, h5⟩ := reg_op_data_frame len 0 data s2 (by omega)
    refine ⟨s', ?_, ?_, ?_, ?_, ?_⟩
    · rw [if_neg hop]
      exact hs'
    · rw [h1, hp2.1, hp1.1]
    · rw [h2, hp2.2.1, hp1.2.1]
    · rw [h3, hp2.2.2.1, hp1.2.2.1]
    · rw [h5, hp2.2.2.2.2, hp1.2.2.2.2]
      simp [txBytes_append, txBytes, reg_op_frame, reg_op_header, hop]

/-- The interpretation of the response byte, as one equation. -/
theorem reg_op_exchange_eq (op addr : Nat) (data : List Nat) (len : Nat) (s s1 s2 : State)
    (r : Nat) (h1 : reg_op_request op addr data len s = some s1)
    (h2 : UART_getch s1 = some (r, s2)) :
    reg_op_exchange op addr data len s =
      some (if r = 0xff then (false, { s2 with sync_state := false })
        else if r = ACK then (true, s2) else (false, s2)) := by
  simp only [reg_op_exchange, h1, h2]
  split
  · rfl
  · split <;> rfl

theorem reg_op_synced (fuel op addr : Nat) (data : List Nat) (len : Nat) (s : State)
    (hs : s.sync_state = true) :
    reg_op fuel op addr data len s = reg_op_exchange op addr data len s := by
  simp [reg_op, hs]

/-- Once the link is Synced the exchange always returns; it has transmitted
exactly its frame, and the outcome is decided by the response byte alone. -/
theorem reg_op_exchange_spec (op addr : Nat) (data : List Nat) (len : Nat) (s : State)
    (hlen : len ≤ data.length) :
    ∃ s1 r s2, reg_op_request op addr data len s = some s1 ∧ UART_getch s1 = some (r, s2) ∧
      s2.sync_state = s.sync_state ∧
      txBytes s2.trace = txBytes s.trace ++ reg_op_frame op addr data len ∧
      reg_op_exchange op addr data len s =
        some (if r = 0xff then (false, { s2 with sync_state := false })
          else if r = ACK then (true, s2) else (false, s2)) := by
  obtain ⟨s1, h1, -, hsy, -, htx⟩ := reg_op_request_frame op addr data len s hlen
  obtain ⟨r, s2, h2⟩ := UART_getch_total s1
  have hg := UART_getch_frame s1 r s2 h2
  refine ⟨s1, r, s2, h1, h2, ?_, ?_, ?_⟩
  · rw [hg.1, hsy]
  · rw [hg.2.2.1, htx]
  · exact reg_op_exchange_eq op addr data len s s1 s2 r h1 h2

/-- The exchange always returns, and what it has transmitted is its frame. -/
theorem reg_op_exchange_tx (op addr : Nat) (data : List Nat) (len : Nat) (s : State)
    (hlen : len ≤ data.length) :
    ∃ ok s', reg_op_exchange op addr data len s = some (ok, s') ∧
      txBytes s'.trace = txBytes s.trace ++ reg_op_frame op addr data len := by
  obtain ⟨s1, r, s2, -, -, -, htx, he⟩ := reg_op_exchange_spec op addr data len s hlen
  rw [he]
  by_cases h1 : r = 0xff
  · exact ⟨false, { s2 with sync_state := false }, by rw [if_pos h1], htx⟩
  · by_cases h2 : r = ACK
    · exact ⟨true, s2, by rw [if_neg h1, if_pos h2], htx⟩
    · exact ⟨false, s2, by rw [if_neg h1, if_neg h2], htx⟩

set_option maxRecDepth 100000 in
theorem addr_high_bits : ∀ addr < 1024, (addr &&& 0x300) >>> 8 = addr >>> 8 := by
  decide

theorem header_byte_small : ∀ op < 8, ∀ hi < 4, ((op <<< 2) ||| hi) % 256 = (op <<< 2) ||| hi := by
  decide

theorem addr_low_byte (addr : Nat) : (addr &&& 0xff) % 256 = addr &&& 0xff := by
  have : addr &&& 0xff = addr % 256 := Nat.and_pow_two_sub_one_eq_mod addr 8
  omega

theorem map_mod_of_small (l : List Nat) (h : ∀ b ∈ l, b ≤ 255) :
    l.map (fun d => d % 256) = l := by
  induction l with
  | nil => rfl
  | cons a l ih =>
    have ha : a ≤ 255 := h a (List.mem_cons_self a l)
    have hl : ∀ b ∈ l, b ≤ 255 := fun b hb => h b (List.mem_cons_of_mem a hb)
    simp only [List.map_cons, ih hl]
    congr 1
    omega

/-- For arguments in range, the bytes the code sends are the frame of the
specification. -/
theorem reg_op_frame_eq_spec (op addr : Nat) (payload : List Nat)
    (hop : op ≤ 7) (haddr : addr ≤ 1023) (hlen : payload.length ≤ 255)
    (hb : ∀ b ∈ payload, b ≤ 255) :
    reg_op_frame op addr payload payload.length = spec_frame op addr payload := by
  have h1 := addr_high_bits addr (by omega)
  have h2 : addr >>> 8 < 4 := by
    rw [Nat.shiftRight_eq_div_pow]
    omega
  have h3 := header_byte_small op (by omega) (addr >>> 8) h2
  have h4 : payload.length % 256 = payload.length := by omega
  simp only [reg_op_frame, reg_op_header, spec_frame, h1, h3, addr_low_byte, h4, List.take_length,
    map_mod_of_small payload hb, ROP_WRITE_MB]


theorem UART_read_two (buf : Nat → Nat) (s s1 s2 : State) (b0 b1 : Nat)
    (h0 : UART_getch s = some (b0, s1)) (h1 : UART_getch s1 = some (b1, s2)) :
    ∃ res, UART_read buf 2 s = some (true, res, s2) ∧ res 0 = b0 ∧ res 1 = b1 := by
  simp only [UART_read, UART_read_loop, h0, h1]
  exact ⟨_, rfl, by simp, by simp⟩

theorem UART_read_four (buf : Nat → Nat) (s s1 s2 s3 s4 : State) (b0 b1 b2 b3 : Nat)
    (h0 : UART_getch s = some (b0, s1)) (h1 : UART_getch s1 = some (b1, s2))
    (h2 : UART_getch s2 = some (b2, s3)) (h3 : UART_getch s3 = some (b3, s4)) :
    ∃ res, UART_read buf 4 s = some (true, res, s4) ∧
      res 0 = b0 ∧ res 1 = b1 ∧ res 2 = b2 ∧ res 3 = b3 := by
  simp only [UART_read, UART_read_loop, h0, h1, h2, h3]
  exact ⟨_, rfl, by simp, by simp, by simp, by simp⟩

theorem reg_op_acked (fuel op addr : Nat) (data : List Nat) (len : Nat) (s s1 s2 : State)
    (hs : s.sync_state = true) (h1 : reg_op_request op addr data len s = some s1)
    (h2 : UART_getch s1 = some (ACK, s2)) :
    reg_op fuel op addr data len s = some (true, s2) := by
  rw [reg_op_synced fuel op addr data len s hs, reg_op_exchange_eq op addr data len s s1 s2 ACK h1 h2]
  simp [ACK]

theorem le_bytes_four (v : Nat) :
    le_bytes 4 v = [v % 256, v / 256 % 256, v / 65536 % 256, v / 16777216 % 256] := by
  simp [le_bytes, Nat.div_div_eq_div_mul]

theorem reg_op_acked_tx (op addr : Nat) (data : List Nat) (len : Nat) (s s1 s2 : State)
    (hlen : len ≤ data.length) (h1 : reg_op_request op addr data len s = some s1)
    (h2 : UART_getch s1 = some (ACK, s2)) :
    txBytes s2.trace = txBytes s.trace ++ reg_op_frame op addr data len := by
  obtain ⟨s1', hs1', -, -, -, htx⟩ := reg_op_request_frame op addr data len s hlen
  rw [h1] at hs1'
  obtain rfl : s1 = s1' := by simpa using hs1'
  rw [(UART_getch_frame s1 ACK s2 h2).2.2.1, htx]

theorem next_needs_no_handshake (s : State) (hs : s.sync_state = true) :
    NextNeedsNoHandshake s := by
  intro fuel op addr data len hlen
  obtain ⟨ok, s', h, htx⟩ := reg_op_exchange_tx op addr data len s hlen
  exact ⟨ok, s', by rw [reg_op_synced fuel op addr data len s hs, h], htx⟩

/-- On a silent wire a read from the empty buffer times out, and the
situation is the same afterwards. -/
theorem UART_getch_silent (s : State) (he : s.idx_in = s.idx_out) (hq : Silent s) :
    ∃ s', UART_getch s = some (0xff, s') ∧ s'.idx_in = s'.idx_out ∧ Silent s' ∧
      s'.sync_state = s.sync_state := by
  obtain ⟨s', h, h1, h2, -, h4, h5, h6, -⟩ :=
    UART_getch_quiet s he (fun t ht _ => hq t ht)
  refine ⟨s', h, by rw [h1, h2, he], ?_, h4⟩
  intro t ht
  rw [h5]
  exact hq t (by omega)

theorem UART_read_loop_total (n : Nat) :
    ∀ (i : Nat) (buf : Nat → Nat) (s : State),
      ∃ res s', UART_read_loop n i buf s = some (res, s') ∧ s'.sync_state = s.sync_state ∧
        txBytes s'.trace = txBytes s.trace := by
  induction n with
  | zero => intro i buf s; exact ⟨buf, s, rfl, rfl, rfl⟩
  | succ n ih =>
    intro i buf s
    obtain ⟨b, s1, h1⟩ := UART_getch_total s
    have hf := UART_getch_frame s b s1 h1
    obtain ⟨res, s', h, hsy, htx⟩ := ih (i + 1) (fun j => if j = i then b else buf j) s1
    exact ⟨res, s', by simp only [UART_read_loop, h1, h], by rw [hsy, hf.1],
      by rw [htx, hf.2.2.1]⟩

/-- The function `UART_read` always returns, with bit 1, and leaves the link state alone. -/
theorem UART_read_total (buf : Nat → Nat) (size : Nat) (s : State) :
    ∃ res s', UART_read buf size s = some (true, res, s') ∧ s'.sync_state = s.sync_state ∧
      txBytes s'.trace = txBytes s.trace := by
  obtain ⟨res, s', h, hsy, htx⟩ := UART_read_loop_total size 0 buf s
  exact ⟨res, s', by simp only [UART_read, h], hsy, htx⟩

/-- Once the single window of `wire_at` has passed, the wire is silent. -/
theorem wire_at_silent_after (k : Nat) (bytes : List Nat) (s : State)
    (hw : s.wire = wire_at k bytes) (hk : k < s.now) : Silent s := by
  intro t ht
  have : ¬ (t = k) := by omega
  simp [hw, wire_at, this]

/-- Before its single window, `wire_at` delivers nothing. -/
theorem wire_at_quiet_before (k : Nat) (bytes : List Nat) (s : State) (n : Nat)
    (hw : s.wire = wire_at k bytes) (hk : s.now + n ≤ k) : Quiet s n := by
  intro t _ ht
  have : ¬ (t = k) := by omega
  simp [hw, wire_at, this]

theorem wire_silent_quiet (s : State) (n : Nat) (hw : s.wire = wire_silent) : Quiet s n := by
  intro t _ _
  simp [hw, wire_silent]

/-- When ACK is followed by silence, `get_reg_mb` takes the timeout value
`0xff` for the length, lets `UART_read` run for 255 bytes and reports
success; the link state is not touched. -/
theorem get_reg_mb_ack_then_silence (fuel addr : Nat) (data : Nat → Nat) (len : Nat)
    (s : State) (hs : s.sync_state = true) (h : AckThenSilence ROP_READ_MB addr s) :
    ∃ res s', get_reg_mb fuel addr data len s = some (true, res, 0xff, s') ∧
      s'.sync_state = true := by
  obtain ⟨s1, s2, h1, h2, he, hq⟩ := h
  have hr := reg_op_acked fuel _ addr _ 0 s s1 s2 hs h1 h2
  obtain ⟨s1', hs1', -, hsy1, -, -⟩ := reg_op_request_frame ROP_READ_MB addr [] 0 s (by simp)
  rw [h1] at hs1'
  obtain rfl : s1 = s1' := by simpa using hs1'
  obtain ⟨s3, h3, -, -, hsy3⟩ := UART_getch_silent s2 he hq
  obtain ⟨res, s4, h4, hsy4, -⟩ := UART_read_total data 0xff s3
  refine ⟨res, s4, by simp only [get_reg_mb, hr, h3, h4], ?_⟩
  rw [hsy4, hsy3, (UART_getch_frame s1 ACK s2 h2).1, hsy1, hs]


/-! ## The ring buffer -/

theorem push_one (b : Nat) (s : State) :
    remregs_UART_ISR [⟨b, false⟩] s =
      { s with
        UART_buffer := fun i => if i = s.idx_out then b % 256 else s.UART_buffer i
        idx_out := (s.idx_out + 1) % 256 % BUFFER_SIZE } := by
  simp [remregs_UART_ISR]

theorem push_all_append (xs : List Nat) (b : Nat) (s : State) :
    push_all (xs ++ [b]) s = remregs_UART_ISR [⟨b, false⟩] (push_all xs s) := by
  simp [push_all, List.foldl_append]

/-- After any number of pushes from write cursor `p`: the write cursor has
advanced modulo 32, nothing but cursor and slots has changed, and slot
`(p + i) % 32` holds the `i`-th byte unless a later push has gone over it. -/
theorem push_all_spec (bytes : List Nat) (s : State) (hp : s.idx_out < 32) :
    (push_all bytes s).idx_out = (s.idx_out + bytes.length) % 32 ∧
    (push_all bytes s).idx_in = s.idx_in ∧
    (push_all bytes s).sync_state = s.sync_state ∧
    (push_all bytes s).OERR2 = s.OERR2 ∧
    (push_all bytes s).wire = s.wire ∧
    (push_all bytes s).now = s.now ∧
    (push_all bytes s).trace = s.trace ∧
    (∀ i, i < bytes.length → bytes.length ≤ i + 32 →
      (push_all bytes s).UART_buffer ((s.idx_out + i) % 32) = bytes.getD i 0 % 256) := by
  induction bytes using List.reverseRecOn with
  | nil =>
    refine ⟨?_, rfl, rfl, rfl, rfl, rfl, rfl, ?_⟩
    · simp only [push_all, List.foldl_nil, List.length_nil]; omega
    · intro i hi; simp at hi
  | append_singleton xs b ih =>
    obtain ⟨h1, h2, h3, h4, h5, h6, h7, h8⟩ := ih
    rw [push_all_append, push_one]
    simp only [List.length_append, List.length_singleton, BUFFER_SIZE]
    refine ⟨?_, h2, h3, h4, h5, h6, h7, ?_⟩
    · rw [h1]; omega
    · intro i hi hle
      by_cases hix : i = xs.length
      · subst hix
        rw [if_pos (by rw [h1]), List.getD_append_right _ _ _ _ (le_refl _)]
        simp
      · have hlt : i < xs.length := by omega
        rw [if_neg (by rw [h1]; omega), h8 i hlt (by omega), List.getD_append _ _ _ _ hlt]

/-- Popping what the buffer holds: if the `l.length < 32` slots from the
read cursor on hold `l`, then `l.length` calls of `UART_getch` return `l`,
each at once, and the buffer is empty afterwards. -/
theorem UART_getch_n_spec (l : List Nat) :
    ∀ (s : State), s.idx_in < 32 → s.idx_out = (s.idx_in + l.length) % 32 → l.length < 32 →
      (∀ i, i < l.length → s.UART_buffer ((s.idx_in + i) % 32) = l.getD i 0) →
      ∃ s', UART_getch_n l.length s = some (l, s') ∧ s'.idx_in = s'.idx_out ∧
        s'.idx_out = s.idx_out ∧ s'.UART_buffer = s.UART_buffer ∧
        s'.sync_state = s.sync_state ∧ s'.now = s.now ∧ s'.trace = s.trace := by
  induction l with
  | nil =>
    intro s hq ho _ _
    refine ⟨s, rfl, ?_, rfl, rfl, rfl, rfl, rfl⟩
    rw [ho]; simp only [List.length_nil]; omega
  | cons b l ih =>
    intro s hq ho hn hc
    simp only [List.length_cons] at ho hn hc
    have hne : s.idx_in ≠ s.idx_out := by rw [ho]; omega
    have hg := UART_getch_ready s hne
    have hb : s.UART_buffer s.idx_in = b := by
      have := hc 0 (by omega)
      rw [show (s.idx_in + 0) % 32 = s.idx_in by omega] at this
      simpa using this
    rw [hb] at hg
    obtain ⟨s', h, h1, h2, h3, h4, h5, h6⟩ :=
      ih { s with idx_in := (s.idx_in + 1) % 256 % BUFFER_SIZE }
        (by simp only [BUFFER_SIZE]; omega)
        (by simp only [BUFFER_SIZE]; rw [ho]; omega)
        (by omega)
        (by
          intro i hi
          have := hc (i + 1) (by omega)
          simp only [BUFFER_SIZE]
          rw [List.getD_cons_succ] at this
          rw [← this]
          congr 1
          omega)
    exact ⟨s', by simp only [List.length_cons, UART_getch_n, hg, h], h1, h2, h3, h4, h5, h6⟩


/-! ## Multibyte reads -/

theorem UART_getch_n_succ (n : Nat) (s s' : State) (bs : List Nat)
    (h : UART_getch_n (n + 1) s = some (bs, s')) :
    ∃ b s1 bs1, UART_getch s = some (b, s1) ∧ UART_getch_n n s1 = some (bs1, s') ∧
      bs = b :: bs1 := by
  unfold UART_getch_n at h
  split at h
  · simp at h
  · rename_i b s1 hg
    split at h
    · simp at h
    · rename_i bs1 s2 hn
      simp only [Option.some.injEq, Prod.mk.injEq] at h
      obtain ⟨rfl, rfl⟩ := h
      exact ⟨b, s1, bs1, hg, hn, rfl⟩

/-- The loop of `UART_read` stores the next `n` bytes of the Byte Reader in
`buf[i..i+n)` and writes no other slot. -/
theorem UART_read_loop_spec (n : Nat) :
    ∀ (i : Nat) (buf : Nat → Nat) (s s' : State) (bs : List Nat),
      UART_getch_n n s = some (bs, s') →
      ∃ res, UART_read_loop n i buf s = some (res, s') ∧
        (∀ j, j < n → res (i + j) = bs.getD j 0) ∧
        (∀ j, j < i ∨ i + n ≤ j → res j = buf j) := by
  induction n with
  | zero =>
    intro i buf s s' bs h
    simp only [UART_getch_n, Option.some.injEq, Prod.mk.injEq] at h
    obtain ⟨-, rfl⟩ := h
    exact ⟨buf, rfl, fun j hj => absurd hj (by omega), fun _ _ => rfl⟩
  | succ n ih =>
    intro i buf s s' bs h
    obtain ⟨b, s1, bs1, hg, hn, rfl⟩ := UART_getch_n_succ n s s' bs h
    obtain ⟨res, hres, hin, hout⟩ := ih (i + 1) (fun j => if j = i then b else buf j) s1 s' bs1 hn
    refine ⟨res, by simp only [UART_read_loop, hg, hres], ?_, ?_⟩
    · intro j hj
      cases j with
      | zero =>
        rw [Nat.add_zero, hout i (Or.inl (by omega))]
        simp
      | succ k =>
        have := hin k (by omega)
        rw [show i + (k + 1) = i + 1 + k by omega, this]
        simp
    · intro j hj
      rw [hout j (by omega)]
      have : ¬ (j = i) := by omega
      simp [this]

/-! ## Occupancy of the ring buffer -/

/-- With both cursors in range, the number of bytes that can be popped
without waiting is the distance from read to write cursor modulo 32. -/
theorem ready_count_eq (fuel : Nat) :
    ∀ (s : State), s.idx_in < 32 → s.idx_out < 32 →
      (s.idx_out + 32 - s.idx_in) % 32 ≤ fuel →
      ready_count fuel s = (s.idx_out + 32 - s.idx_in) % 32 := by
  induction fuel with
  | zero =>
    intro s _ _ h
    simp only [ready_count]
    omega
  | succ n ih =>
    intro s hi ho h
    by_cases he : s.idx_in = s.idx_out
    · have hk : UART_kbhit s = false := by simp [UART_kbhit, he]
      simp only [ready_count, hk, Bool.false_eq_true, if_false]
      rw [he]
      omega
    · have hk : UART_kbhit s = true := by simp [UART_kbhit, he]
      have hg := UART_getch_ready s he
      have := ih { s with idx_in := (s.idx_in + 1) % 256 % BUFFER_SIZE }
        (by simp only [BUFFER_SIZE]; omega) ho (by simp only [BUFFER_SIZE]; omega)
      simp only [ready_count, hk, if_true, hg, this]
      show 1 + (s.idx_out + 32 - (s.idx_in + 1) % 256 % BUFFER_SIZE) % 32 = _
      simp only [BUFFER_SIZE]
      omega

/-! ## Who writes what in the ring buffer -/

theorem ISR_idx_out_lt (cs : List RxChar) :
    ∀ (s : State), s.idx_out < 32 → (remregs_UART_ISR cs s).idx_out < 32 := by
  induction cs with
  | nil => intro s h; exact h
  | cons c cs ih =>
    intro s h
    unfold remregs_UART_ISR
    split
    · apply ih
      show (s.idx_out + 1) % 256 % BUFFER_SIZE < 32
      simp only [BUFFER_SIZE]
      omega
    · exact ih s h

/-- What the handler does to write cursor and slots depends on write cursor
and slots alone. -/
theorem ISR_congr (cs : List RxChar) :
    ∀ (s t : State), s.idx_out = t.idx_out → s.UART_buffer = t.UART_buffer →
      (remregs_UART_ISR cs s).idx_out = (remregs_UART_ISR cs t).idx_out ∧
      (remregs_UART_ISR cs s).UART_buffer = (remregs_UART_ISR cs t).UART_buffer := by
  induction cs with
  | nil => intro s t h1 h2; exact ⟨h1, h2⟩
  | cons c cs ih =>
    intro s t h1 h2
    unfold remregs_UART_ISR
    split
    · apply ih
      · show (s.idx_out + 1) % 256 % BUFFER_SIZE = (t.idx_out + 1) % 256 % BUFFER_SIZE
        rw [h1]
      · show (fun i => if i = s.idx_out then c.RCREG2 % 256 else s.UART_buffer i) =
          (fun i => if i = t.idx_out then c.RCREG2 % 256 else t.UART_buffer i)
        rw [h1, h2]
    · exact ih s t h1 h2

theorem delay_rx (ms : Nat) (s : State) :
    (__delay_ms ms s).idx_out = (remregs_UART_ISR (s.wire s.now).chars s).idx_out ∧
    (__delay_ms ms s).UART_buffer = (remregs_UART_ISR (s.wire s.now).chars s).UART_buffer :=
  ISR_congr (s.wire s.now).chars { s with trace := s.trace ++ [Event.delay ms] } s rfl rfl

/-- Whatever `UART_getch` returns, write cursor and slots are what the
handler made of them during the windows that passed, and the read cursor
has stayed or advanced by one. -/
theorem UART_getch_loop_rx (fuel : Nat) :
    ∀ (timer : Nat) (s : State) (r : Nat) (s' : State),
      UART_getch_loop fuel timer s = some (r, s') →
      (s'.idx_in = s.idx_in ∨ s'.idx_in = (s.idx_in + 1) % 256 % 32) ∧
      ∃ k, s'.now = s.now + k ∧
        s'.idx_out = (remregs_UART_ISR (arrived s.wire s.now k) s).idx_out ∧
        s'.UART_buffer = (remregs_UART_ISR (arrived s.wire s.now k) s).UART_buffer := by
  induction fuel with
  | zero => intro timer s r s' h; simp [UART_getch_loop] at h
  | succ n ih =>
    intro timer s r s' h
    unfold UART_getch_loop at h
    have hd := delay_frame 10 s
    have hrx := delay_rx 10 s
    have hc := CLRWDT_clear_oerr_frame (__delay_ms 10 s)
    split at h
    · simp only at h
      split at h
      · simp only [Option.some.injEq, Prod.mk.injEq] at h
        obtain ⟨-, rfl⟩ := h
        refine ⟨Or.inl hd.1, 1, hd.2.2.2.1, ?_, ?_⟩
        · rw [hrx.1]; simp [arrived]
        · rw [hrx.2]; simp [arrived]
      · obtain ⟨hin, k, hk, ho, hb⟩ := ih _ _ _ _ h
        rw [hc.1, hd.1] at hin
        rw [hc.2.2.2.2.2.1, hd.2.2.2.1] at hk
        rw [hc.2.2.2.2.1, hd.2.2.1, hc.2.2.2.2.2.1, hd.2.2.2.1] at ho hb
        have hcg := ISR_congr (arrived s.wire (s.now + 1) k)
          (CLRWDT (UART_clear_oerr (__delay_ms 10 s)))
          (remregs_UART_ISR (s.wire s.now).chars s)
          (by rw [hc.2.1, hrx.1]) (by rw [hc.2.2.1, hrx.2])
        refine ⟨hin, k + 1, by rw [hk]; omega, ?_, ?_⟩
        · rw [ho, hcg.1, arrived, ISR_append]
        · rw [hb, hcg.2, arrived, ISR_append]
    · simp only [Option.some.injEq, Prod.mk.injEq] at h
      obtain ⟨-, rfl⟩ := h
      exact ⟨Or.inr rfl, 0, rfl, rfl, rfl⟩

/-- Both cursors stay in 0..31 in every reachable state. -/
theorem Reachable_cursors (s : State) (h : Reachable s) : s.idx_in < 32 ∧ s.idx_out < 32 := by
  induction h with
  | init s h1 h2 => rw [h1, h2]; exact ⟨by decide, by decide⟩
  | isr s pending _ ih =>
    exact ⟨by rw [(ISR_frame pending s).1]; exact ih.1, ISR_idx_out_lt pending s ih.2⟩
  | getch s s' r _ hg ih =>
    obtain ⟨hin, k, -, ho, -⟩ := UART_getch_loop_rx 200 0 s r s' hg
    refine ⟨?_, by rw [ho]; exact ISR_idx_out_lt _ s ih.2⟩
    rcases hin with h | h
    · rw [h]; exact ih.1
    · rw [h]; omega

/-! ## Arithmetic of the frame header -/

theorem lor_shift2_small : ∀ op < 8, ∀ hi < 4, (op <<< 2) ||| hi = 4 * op + hi := by
  decide

set_option maxRecDepth 100000 in
theorem lor_shift8_small : ∀ hi < 4, ∀ a < 256, (hi <<< 8) ||| a = 256 * hi + a := by
  decide

theorem addr_bits_9_8 (addr : Nat) : (addr &&& 0x300) >>> 8 = addr / 256 % 4 := by
  have h768 : ∀ i, Nat.testBit 768 (8 + i) = Nat.testBit 3 i := by
    intro i
    have e : (768 : Nat) = 3 <<< 8 := rfl
    rw [e, Nat.testBit_shiftLeft]
    simp
  have h : (addr &&& 0x300) >>> 8 = (addr >>> 8) &&& (2 ^ 2 - 1) := by
    apply Nat.eq_of_testBit_eq
    intro i
    simp [Nat.testBit_shiftRight, Nat.testBit_and, h768]
  rw [h, Nat.and_pow_two_sub_one_eq_mod, Nat.shiftRight_eq_div_pow]

theorem addr_bits_7_0 (addr : Nat) : addr &&& 0xff = addr % 256 :=
  Nat.and_pow_two_sub_one_eq_mod addr 8

/-- The header bytes in plain arithmetic: `4 * op + addr[9:8]` and `addr[7:0]`. -/
theorem reg_op_header_arith (op addr : Nat) (hop : op ≤ 7) :
    (op <<< 2) ||| ((addr &&& 0x300) >>> 8) = 4 * op + addr / 256 % 4 ∧
    reg_op_header op addr = [4 * op + addr / 256 % 4, addr % 256] := by
  have h1 : (op <<< 2) ||| ((addr &&& 0x300) >>> 8) = 4 * op + addr / 256 % 4 := by
    rw [addr_bits_9_8]
    exact lor_shift2_small op (by omega) _ (Nat.mod_lt _ (by decide))
  refine ⟨h1, ?_⟩
  simp only [reg_op_header, h1, addr_bits_7_0]
  congr 1
  · omega
  · congr 1
    omega

/-! ## How long the handshake can wait -/

theorem occupancy_ISR (cs : List RxChar) :
    ∀ (s : State) (q : Nat), s.idx_out < 32 → q < 32 →
      ((remregs_UART_ISR cs s).idx_out + 32 - q) % 32 ≤ (s.idx_out + 32 - q) % 32 + cs.length := by
  induction cs with
  | nil => intro s q _ _; simp [remregs_UART_ISR]
  | cons c cs ih =>
    intro s q ho hq
    unfold remregs_UART_ISR
    split
    · have := ih { s with
          UART_buffer := fun i => if i = s.idx_out then c.RCREG2 % 256 else s.UART_buffer i
          idx_out := (s.idx_out + 1) % 256 % BUFFER_SIZE } q
        (by show (s.idx_out + 1) % 256 % BUFFER_SIZE < 32; simp only [BUFFER_SIZE]; omega) hq
      have e : ({ s with
          UART_buffer := fun i => if i = s.idx_out then c.RCREG2 % 256 else s.UART_buffer i
          idx_out := (s.idx_out + 1) % 256 % BUFFER_SIZE } : State).idx_out
            = (s.idx_out + 1) % 256 % 32 := rfl
      rw [e] at this
      simp only [List.length_cons]
      omega
    · have := ih s q ho hq
      simp only [List.length_cons]
      omega

/-- One window seen through the potential `occupancy + bytes still to
arrive`: it does not grow, and the cursors stay in range. -/
theorem rx_step (s s1 : State) (K : Nat) (hin : s1.idx_in = s.idx_in)
    (hout : s1.idx_out = (remregs_UART_ISR (s.wire s.now).chars s).idx_out)
    (hw : s1.wire = s.wire) (hn : s1.now = s.now + 1)
    (hi : s.idx_in < 32) (ho : s.idx_out < 32)
    (hfin : ∀ t, s.now + K ≤ t → (s.wire t).chars = []) :
    s1.idx_in < 32 ∧ s1.idx_out < 32 ∧
    (∀ t, s1.now + (K - 1) ≤ t → (s1.wire t).chars = []) ∧
    occupancy s1 + (arrived s1.wire s1.now (K - 1)).length
      ≤ occupancy s + (arrived s.wire s.now K).length := by
  have hocc := occupancy_ISR (s.wire s.now).chars s s.idx_in ho hi
  refine ⟨by rw [hin]; exact hi, by rw [hout]; exact ISR_idx_out_lt _ s ho, ?_, ?_⟩
  · intro t ht
    rw [hw]
    rw [hn] at ht
    exact hfin t (by omega)
  · simp only [occupancy, hin, hout, hw, hn]
    cases K with
    | zero =>
      have h0 := hfin s.now (by omega)
      rw [h0, ISR_nil]
      simp only [arrived, List.length_nil]
      omega
    | succ k =>
      simp only [Nat.add_sub_cancel, arrived, List.length_append]
      omega

theorem delay_step (ms : Nat) (s : State) (K : Nat) (hi : s.idx_in < 32) (ho : s.idx_out < 32)
    (hfin : ∀ t, s.now + K ≤ t → (s.wire t).chars = []) :
    (__delay_ms ms s).idx_in < 32 ∧ (__delay_ms ms s).idx_out < 32 ∧
    (∀ t, (__delay_ms ms s).now + (K - 1) ≤ t → ((__delay_ms ms s).wire t).chars = []) ∧
    occupancy (__delay_ms ms s) +
        (arrived (__delay_ms ms s).wire (__delay_ms ms s).now (K - 1)).length
      ≤ occupancy s + (arrived s.wire s.now K).length :=
  rx_step s (__delay_ms ms s) K (delay_frame ms s).1 (delay_rx ms s).1 (delay_frame ms s).2.2.1
    (delay_frame ms s).2.2.2.1 hi ho hfin

theorem UART_putch_step (c : Nat) (s : State) (K : Nat) (hi : s.idx_in < 32)
    (ho : s.idx_out < 32) (hfin : ∀ t, s.now + K ≤ t → (s.wire t).chars = []) :
    (UART_putch c s).idx_in < 32 ∧ (UART_putch c s).idx_out < 32 ∧
    (∀ t, (UART_putch c s).now + (K - 1) ≤ t → ((UART_putch c s).wire t).chars = []) ∧
    occupancy (UART_putch c s) +
        (arrived (UART_putch c s).wire (UART_putch c s).now (K - 1)).length
      ≤ occupancy s + (arrived s.wire s.now K).length :=
  rx_step s (UART_putch c s) K (UART_putch_frame c s).1 (by simp [UART_putch, rx_window])
    (UART_putch_frame c s).2.2.1 (UART_putch_frame c s).2.2.2.1 hi ho hfin

theorem UART_putch_rep_step (n : Nat) :
    ∀ (c : Nat) (s : State) (K : Nat), s.idx_in < 32 → s.idx_out < 32 →
      (∀ t, s.now + K ≤ t → (s.wire t).chars = []) →
      (UART_putch_rep n c s).idx_in < 32 ∧ (UART_putch_rep n c s).idx_out < 32 ∧
      (∀ t, (UART_putch_rep n c s).now + (K - n) ≤ t →
        ((UART_putch_rep n c s).wire t).chars = []) ∧
      occupancy (UART_putch_rep n c s) +
          (arrived (UART_putch_rep n c s).wire (UART_putch_rep n c s).now (K - n)).length
        ≤ occupancy s + (arrived s.wire s.now K).length := by
  induction n with
  | zero => intro c s K hi ho hfin; exact ⟨hi, ho, hfin, le_refl _⟩
  | succ n ih =>
    intro c s K hi ho hfin
    obtain ⟨h1, h2, h3, h4⟩ := UART_putch_step c s K hi ho hfin
    obtain ⟨g1, g2, g3, g4⟩ := ih c (UART_putch c s) (K - 1) h1 h2 h3
    rw [show K - 1 - n = K - (n + 1) by omega] at g3 g4
    exact ⟨g1, g2, g3, le_trans g4 h4⟩

/-- The polling loop of `remregs_sync` returns whenever only finitely many
bytes arrive.  Of its polls, those that find nothing number at most
`250 - timer` (exactly that many when it gives up); each of the others takes
a byte from the potential. -/
theorem remregs_sync_loop_bounded (fuel : Nat) :
    ∀ (timer b K : Nat) (s : State), timer < 250 → s.idx_in < 32 → s.idx_out < 32 →
      (∀ t, s.now + K ≤ t → (s.wire t).chars = []) →
      (250 - timer) + (occupancy s + (arrived s.wire s.now K).length) ≤ fuel →
      ∃ ok s' polls, remregs_sync_loop fuel timer b s = some (ok, s') ∧
        s'.trace = s.trace ++ polls ∧
        polls.count Event.clrwdt ≤ 250 - timer ∧
        (ok = false → polls.count Event.clrwdt = 250 - timer) ∧
        polls.count (Event.delay 1)
          ≤ polls.count Event.clrwdt + (occupancy s + (arrived s.wire s.now K).length) ∧
        (∀ e ∈ polls, e = Event.delay 1 ∨ e = Event.clrwdt) := by
  induction fuel with
  | zero => intro timer b K s ht _ _ _ hf; omega
  | succ n ih =>
    intro timer b K s ht hi ho hfin hf
    obtain ⟨h1i, h1o, h1fin, h1pot⟩ := delay_step 1 s K hi ho hfin
    have hd := delay_frame 1 s
    generalize hs1 : __delay_ms 1 s = s1 at h1i h1o h1fin h1pot hd
    by_cases hk : UART_kbhit s1 = true
    · have hne : s1.idx_in ≠ s1.idx_out := by
        simpa [UART_kbhit] using hk
      have hg := UART_getch_ready s1 hne
      have hocc1 : 1 ≤ occupancy s1 := by
        simp only [occupancy]; omega
      by_cases hb' : s1.UART_buffer s1.idx_in ≠ 0xAA ∧ s1.UART_buffer s1.idx_in ≠ 0x55
      · have hocc2 : occupancy ({ s1 with idx_in := (s1.idx_in + 1) % 256 % BUFFER_SIZE } : State)
            + 1 = occupancy s1 := by
          show (s1.idx_out + 32 - (s1.idx_in + 1) % 256 % BUFFER_SIZE) % 32 + 1
            = (s1.idx_out + 32 - s1.idx_in) % 32
          simp only [BUFFER_SIZE]
          omega
        obtain ⟨ok, s', polls, hl, htr, hc1, hc2, hc3, hc4⟩ :=
          ih timer (s1.UART_buffer s1.idx_in) (K - 1)
            { s1 with idx_in := (s1.idx_in + 1) % 256 % BUFFER_SIZE } ht
            (by show (s1.idx_in + 1) % 256 % BUFFER_SIZE < 32; simp only [BUFFER_SIZE]; omega)
            h1o h1fin
            (by
              show 250 - timer + (occupancy ({ s1 with
                idx_in := (s1.idx_in + 1) % 256 % BUFFER_SIZE } : State)
                  + (arrived s1.wire s1.now (K - 1)).length) ≤ n
              omega)
        refine ⟨ok, s', Event.delay 1 :: polls, ?_, ?_, ?_, ?_, ?_, ?_⟩
        · rw [remregs_sync_loop]
          simp only [hs1, hk, if_true, hg]
          rw [if_pos hb']
          exact hl
        · rw [htr]
          show s1.trace ++ polls = _
          rw [hd.2.2.2.2]
          simp
        · simpa [List.count_cons] using hc1
        · intro h; simpa [List.count_cons] using hc2 h
        · have e : (arrived ({ s1 with
              idx_in := (s1.idx_in + 1) % 256 % BUFFER_SIZE } : State).wire
              ({ s1 with idx_in := (s1.idx_in + 1) % 256 % BUFFER_SIZE } : State).now
              (K - 1)).length = (arrived s1.wire s1.now (K - 1)).length := rfl
          rw [e] at hc3
          simp only [List.count_cons, beq_self_eq_true, if_true]
          have e2 : (Event.delay 1 == Event.clrwdt) = false := by decide
          simp only [e2, Bool.false_eq_true, if_false, Nat.add_zero]
          omega
        · intro e he
          rcases List.mem_cons.mp he with h | h
          · exact Or.inl h
          · exact hc4 e h
      · refine ⟨true, { ({ s1 with idx_in := (s1.idx_in + 1) % 256 % BUFFER_SIZE } : State) with
          sync_state := true }, [Event.delay 1], ?_, ?_, ?_, ?_, ?_, ?_⟩
        · rw [remregs_sync_loop]
          simp only [hs1, hk, if_true, hg]
          rw [if_neg hb']
        · show s1.trace = _
          rw [hd.2.2.2.2]
        · simp [List.count_cons]
        · intro h; simp at h
        · simp only [List.count_cons, List.count_nil, beq_self_eq_true, if_true]
          have e2 : (Event.delay 1 == Event.clrwdt) = false := by decide
          simp only [e2, Bool.false_eq_true, if_false]
          omega
        · intro e he
          simp only [List.mem_singleton] at he
          exact Or.inl he
    · have hk' : UART_kbhit s1 = false := by simpa using hk
      have e2 : (Event.delay 1 == Event.clrwdt) = false := by decide
      have e3 : (Event.clrwdt == Event.delay 1) = false := by decide
      by_cases ht250 : (timer + 1) % 256 = 250
      · refine ⟨false, CLRWDT s1, [Event.delay 1, Event.clrwdt], ?_, ?_, ?_, ?_, ?_, ?_⟩
        · rw [remregs_sync_loop]
          simp only [hs1, hk', Bool.false_eq_true, if_false, ht250, if_true]
        · simp [CLRWDT, hd.2.2.2.2]
        · simp only [List.count_cons, List.count_nil, beq_self_eq_true, if_true, e2,
            Bool.false_eq_true, if_false]
          omega
        · intro _
          simp only [List.count_cons, List.count_nil, beq_self_eq_true, if_true, e2,
            Bool.false_eq_true, if_false]
          omega
        · simp only [List.count_cons, List.count_nil, beq_self_eq_true, if_true, e2, e3,
            Bool.false_eq_true, if_false]
          omega
        · intro e he
          simp only [List.mem_cons, List.mem_singleton, List.mem_nil_iff, or_false] at he
          exact he
      · by_cases hb : b ≠ 0xAA ∧ b ≠ 0x55
        · obtain ⟨ok, s', polls, hl, htr, hc1, hc2, hc3, hc4⟩ :=
            ih ((timer + 1) % 256) b (K - 1) (CLRWDT s1) (by omega) h1i h1o h1fin
              (by
                show 250 - (timer + 1) % 256 + (occupancy s1
                  + (arrived s1.wire s1.now (K - 1)).length) ≤ n
                omega)
          have e : occupancy (CLRWDT s1) + (arrived (CLRWDT s1).wire (CLRWDT s1).now
              (K - 1)).length = occupancy s1 + (arrived s1.wire s1.now (K - 1)).length := rfl
          rw [e] at hc3
          refine ⟨ok, s', Event.delay 1 :: Event.clrwdt :: polls, ?_, ?_, ?_, ?_, ?_, ?_⟩
          · rw [remregs_sync_loop]
            simp only [hs1, hk', Bool.false_eq_true, if_false, ht250]
            rw [if_pos hb]
            exact hl
          · rw [htr]
            simp [CLRWDT, hd.2.2.2.2]
          · simp only [List.count_cons, beq_self_eq_true, if_true, e2, Bool.false_eq_true,
              if_false]
            omega
          · intro h
            have := hc2 h
            simp only [List.count_cons, beq_self_eq_true, if_true, e2, Bool.false_eq_true,
              if_false]
            omega
          · simp only [List.count_cons, beq_self_eq_true, if_true, e2, e3, Bool.false_eq_true,
              if_false]
            omega
          · intro e he
            rcases List.mem_cons.mp he with h | h
            · exact Or.inl h
            · rcases List.mem_cons.mp h with h | h
              · exact Or.inr h
              · exact hc4 e h
        · refine ⟨true, { (CLRWDT s1) with sync_state := true },
            [Event.delay 1, Event.clrwdt], ?_, ?_, ?_, ?_, ?_, ?_⟩
          · rw [remregs_sync_loop]
            simp only [hs1, hk', Bool.false_eq_true, if_false, ht250]
            rw [if_neg hb]
          · simp [CLRWDT, hd.2.2.2.2]
          · simp only [List.count_cons, List.count_nil, beq_self_eq_true, if_true, e2,
              Bool.false_eq_true, if_false]
            omega
          · intro h; simp at h
          · simp only [List.count_cons, List.count_nil, beq_self_eq_true, if_true, e2, e3,
              Bool.false_eq_true, if_false]
            omega
          · intro e he
            simp only [List.mem_cons, List.mem_singleton, List.mem_nil_iff, or_false] at he
            exact he

/-- On the flooding wire every poll finds a byte that is no handshake reply,
so the polling loop never gets to count. -/
theorem remregs_sync_loop_flood (fuel : Nat) :
    ∀ (timer b : Nat) (s : State), (b ≠ 0xAA ∧ b ≠ 0x55) → s.idx_in = s.idx_out →
      s.idx_in < 32 → (∀ i, s.UART_buffer i = 0) → s.wire = wire_flood → 25 ≤ s.now →
      remregs_sync_loop fuel timer b s = none := by
  induction fuel with
  | zero => intro timer b s _ _ _ _ _ _; rfl
  | succ n ih =>
    intro timer b s _ he hi hz hw hn
    have hchars : (s.wire s.now).chars = [⟨0, false⟩] := by
      simp [hw, wire_flood, hn]
    have hd := delay_frame 1 s
    have hdc := delay_one_char 1 s 0 hchars
    have hne : (__delay_ms 1 s).idx_in ≠ (__delay_ms 1 s).idx_out := by
      rw [hd.1, hdc.1, he]
      simp only [BUFFER_SIZE]
      omega
    have hk : UART_kbhit (__delay_ms 1 s) = true := by simp [UART_kbhit, hne]
    have hz1 : ∀ i, (__delay_ms 1 s).UART_buffer i = 0 := by
      intro i
      rw [hdc.2]
      by_cases h : i = s.idx_out <;> simp [h, hz i]
    have hg := UART_getch_ready _ hne
    rw [hz1] at hg
    rw [remregs_sync_loop]
    simp only [hk, if_true, hg]
    rw [if_pos (by decide)]
    apply ih timer 0 _ (by decide)
    · show ((__delay_ms 1 s).idx_in + 1) % 256 % BUFFER_SIZE = (__delay_ms 1 s).idx_out
      rw [hd.1, hdc.1, he]
    · show ((__delay_ms 1 s).idx_in + 1) % 256 % BUFFER_SIZE < 32
      simp only [BUFFER_SIZE]
      omega
    · exact hz1
    · show (__delay_ms 1 s).wire = wire_flood
      rw [hd.2.2.1, hw]
    · show 25 ≤ (__delay_ms 1 s).now
      rw [hd.2.2.2.1]
      omega

/-- Against a peer that keeps sending other bytes `remregs_sync` does not
return, whatever the fuel. -/
theorem remregs_sync_flood (fuel : Nat) : remregs_sync fuel (init_state wire_flood) = none := by
  have h0 := sync_start_frame (init_state wire_flood) (by decide)
  simp only at h0
  unfold remregs_sync
  simp only
  generalize UART_putch 0xaa (UART_putch_rep 24 0xff
    { init_state wire_flood with sync_state := false }) = s0 at h0 ⊢
  apply remregs_sync_loop_flood fuel 0 0 s0 (by decide)
  · rw [h0.1, h0.2.1]; rfl
  · rw [h0.1]; decide
  · intro i; rw [h0.2.2.1]; rfl
  · rw [h0.2.2.2.2.1]; rfl
  · rw [h0.2.2.2.2.2.1]; decide

/-- Whatever the peer does: when the polling loop of `remregs_sync` returns,
it has done nothing but polls and watchdog clears, and the polls that found
nothing, each followed by one watchdog clear, number at most `250 - timer`,
exactly that many when it gives up. -/
theorem remregs_sync_loop_empty_polls (fuel : Nat) :
    ∀ (timer b : Nat) (s : State) (ok : Bool) (s' : State), timer < 250 →
      remregs_sync_loop fuel timer b s = some (ok, s') →
      ∃ polls, s'.trace = s.trace ++ polls ∧
        (∀ e ∈ polls, e = Event.delay 1 ∨ e = Event.clrwdt) ∧
        polls.count Event.clrwdt ≤ 250 - timer ∧
        (ok = false → polls.count Event.clrwdt = 250 - timer) ∧
        polls.count Event.clrwdt ≤ polls.count (Event.delay 1) := by
  induction fuel with
  | zero => intro timer b s ok s' _ h; simp [remregs_sync_loop] at h
  | succ n ih =>
    intro timer b s ok s' ht h
    have hd := delay_frame 1 s
    have e2 : (Event.delay 1 == Event.clrwdt) = false := by decide
    have e3 : (Event.clrwdt == Event.delay 1) = false := by decide
    rw [remregs_sync_loop] at h
    simp only at h
    generalize hs1 : __delay_ms 1 s = s1 at h hd
    by_cases hk : UART_kbhit s1 = true
    · have hne : s1.idx_in ≠ s1.idx_out := by
        simpa [UART_kbhit] using hk
      have hg := UART_getch_ready s1 hne
      simp only [hk, if_true, hg] at h
      by_cases hb' : s1.UART_buffer s1.idx_in ≠ 0xAA ∧ s1.UART_buffer s1.idx_in ≠ 0x55
      · rw [if_pos hb'] at h
        obtain ⟨polls, htr, hc4, hc1, hc2, hc5⟩ := ih _ _ _ _ _ ht h
        refine ⟨Event.delay 1 :: polls, ?_, ?_, ?_, ?_, ?_⟩
        · rw [htr]
          show s1.trace ++ polls = _
          rw [hd.2.2.2.2]
          simp
        · intro e he
          rcases List.mem_cons.mp he with h1 | h1
          · exact Or.inl h1
          · exact hc4 e h1
        · simpa [List.count_cons] using hc1
        · intro h1; simpa [List.count_cons] using hc2 h1
        · simp only [List.count_cons, beq_self_eq_true, if_true, e2, Bool.false_eq_true,
            if_false]
          omega
      · rw [if_neg hb'] at h
        simp only [Option.some.injEq, Prod.mk.injEq] at h
        obtain ⟨rfl, rfl⟩ := h
        refine ⟨[Event.delay 1], ?_, ?_, ?_, ?_, ?_⟩
        · show s1.trace = _
          rw [hd.2.2.2.2]
        · intro e he
          simp only [List.mem_singleton] at he
          exact Or.inl he
        · simp [List.count_cons]
        · intro h1; simp at h1
        · simp [List.count_cons]
    · have hk' : UART_kbhit s1 = false := by simpa using hk
      simp only [hk', Bool.false_eq_true, if_false] at h
      by_cases ht250 : (timer + 1) % 256 = 250
      · simp only [ht250, if_true, Option.some.injEq, Prod.mk.injEq] at h
        obtain ⟨rfl, rfl⟩ := h
        refine ⟨[Event.delay 1, Event.clrwdt], ?_, ?_, ?_, ?_, ?_⟩
        · simp [CLRWDT, hd.2.2.2.2]
        · intro e he
          simp only [List.mem_cons, List.mem_singleton, List.mem_nil_iff, or_false] at he
          exact he
        · simp only [List.count_cons, List.count_nil, beq_self_eq_true, if_true, e2,
            Bool.false_eq_true, if_false]
          omega
        · intro _
          simp only [List.count_cons, List.count_nil, beq_self_eq_true, if_true, e2,
            Bool.false_eq_true, if_false]
          omega
        · simp only [List.count_cons, List.count_nil, beq_self_eq_true, if_true, e2, e3,
            Bool.false_eq_true, if_false]
          omega
      · simp only [ht250, if_false] at h
        by_cases hb : b ≠ 0xAA ∧ b ≠ 0x55
        · rw [if_pos hb] at h
          obtain ⟨polls, htr, hc4, hc1, hc2, hc5⟩ := ih _ _ _ _ _ (by omega) h
          refine ⟨Event.delay 1 :: Event.clrwdt :: polls, ?_, ?_, ?_, ?_, ?_⟩
          · rw [htr]
            simp [CLRWDT, hd.2.2.2.2]
          · intro e he
            rcases List.mem_cons.mp he with h1 | h1
            · exact Or.inl h1
            · rcases List.mem_cons.mp h1 with h2 | h2
              · exact Or.inr h2
              · exact hc4 e h2
          · simp only [List.count_cons, beq_self_eq_true, if_true, e2, Bool.false_eq_true,
              if_false]
            omega
          · intro h1
            have := hc2 h1
            simp only [List.count_cons, beq_self_eq_true, if_true, e2, Bool.false_eq_true,
              if_false]
            omega
          · simp only [List.count_cons, beq_self_eq_true, if_true, e2, e3, Bool.false_eq_true,
              if_false]
            omega
        · rw [if_neg hb] at h
          simp only [Option.some.injEq, Prod.mk.injEq] at h
          obtain ⟨rfl, rfl⟩ := h
          refine ⟨[Event.delay 1, Event.clrwdt], ?_, ?_, ?_, ?_, ?_⟩
          · simp [CLRWDT, hd.2.2.2.2]
          · intro e he
            simp only [List.mem_cons, List.mem_singleton, List.mem_nil_iff, or_false] at he
            exact he
          · simp only [List.count_cons, List.count_nil, beq_self_eq_true, if_true, e2,
              Bool.false_eq_true, if_false]
            omega
          · intro h1; simp at h1
          · simp only [List.count_cons, List.count_nil, beq_self_eq_true, if_true, e2, e3,
              Bool.false_eq_true, if_false]
            omega

/-- Whatever the peer does: when `remregs_sync` returns, after the preamble
it has done nothing but polls and watchdog clears, with at most 250 polls
that found nothing, exactly 250 when it reports failure. -/
theorem remregs_sync_empty_polls (fuel : Nat) (s : State) (ok : Bool) (s' : State)
    (h : remregs_sync fuel s = some (ok, s')) :
    ∃ polls,
      s'.trace = s.trace ++ List.replicate 24 (Event.tx 0xFF) ++ [Event.tx 0xAA] ++ polls ∧
      (∀ e ∈ polls, e = Event.delay 1 ∨ e = Event.clrwdt) ∧
      polls.count Event.clrwdt ≤ 250 ∧
      (ok = false → polls.count Event.clrwdt = 250) ∧
      polls.count Event.clrwdt ≤ polls.count (Event.delay 1) := by
  have hr := UART_putch_rep_frame 24 0xff { s with sync_state := false }
  have hp := UART_putch_frame 0xaa (UART_putch_rep 24 0xff { s with sync_state := false })
  unfold remregs_sync at h
  obtain ⟨polls, htr, h1, h2, h3, h4⟩ := remregs_sync_loop_empty_polls fuel 0 0 _ ok s'
    (by decide) h
  refine ⟨polls, ?_, h1, by omega, ?_, h4⟩
  · rw [htr, hp.2.2.2.2, hr.2.2.2.2]
  · intro hf
    have := h3 hf
    omega

/-- The address enters a request only through its low ten bits. -/
theorem reg_op_addr_mod (fuel op addr : Nat) (data : List Nat) (len : Nat) (s : State) :
    reg_op fuel op addr data len s = reg_op fuel op (addr % 1024) data len s := by
  have e1 : (addr &&& 0x300) >>> 8 = ((addr % 1024) &&& 0x300) >>> 8 := by
    rw [addr_bits_9_8, addr_bits_9_8]
    omega
  have e2 : addr &&& 0xff = (addr % 1024) &&& 0xff := by
    rw [addr_bits_7_0, addr_bits_7_0]
    omega
  simp only [reg_op, reg_op_exchange, reg_op_request, e1, e2]

/-- On a Synced link `reg_op` returns, and what it has transmitted starts
with the two header bytes, in plain arithmetic. -/
theorem reg_op_sends_header (fuel op addr : Nat) (data : List Nat) (len : Nat) (s : State)
    (hop : op ≤ 7) (hs : s.sync_state = true) (hlen : len ≤ data.length) :
    ∃ ok s' rest, reg_op fuel op addr data len s = some (ok, s') ∧
      txBytes s'.trace = txBytes s.trace ++ (4 * op + addr / 256 % 4) :: (addr % 256) :: rest := by
  obtain ⟨ok, s', h, htx⟩ := reg_op_exchange_tx op addr data len s hlen
  refine ⟨ok, s', (if op = ROP_WRITE_MB then [len % 256] else []) ++
    (data.take len).map (fun d => d % 256), ?_, ?_⟩
  · rw [reg_op_synced fuel op addr data len s hs, h]
  · rw [htx, reg_op_frame, (reg_op_header_arith op addr hop).2]
    simp


/-! ## Claims -/

/-- C1: for every opcode `op` in 0..7, address in 0..1023 and payload (bytes,
at most 255 of them), `reg_op` on a Synced link returns and has transmitted
exactly the frame of the specification: header `(op << 2) | (addr >> 8)`,
address byte `addr & 0xFF`, the length byte only for opcode 7, then the
payload; on an Unsynced link whose handshake succeeds it has transmitted the
25-byte preamble followed by that frame, once. -/
theorem C1_reg_op_transmits_frame (fuel op addr : Nat) (payload : List Nat) (s : State)
    (hop : op ≤ 7) (haddr : addr ≤ 1023) (hlen : payload.length ≤ 255)
    (hb : ∀ b ∈ payload, b ≤ 255) :
    (s.sync_state = true →
      ∃ ok s', reg_op fuel op addr payload payload.length s = some (ok, s') ∧
        txBytes s'.trace = txBytes s.trace ++ spec_frame op addr payload) ∧
    (s.sync_state = false → ∀ s1, remregs_sync fuel s = some (true, s1) →
      ∃ ok s', reg_op fuel op addr payload payload.length s = some (ok, s') ∧
        txBytes s'.trace = txBytes s.trace ++ preamble ++ spec_frame op addr payload) := by
  have hfr := reg_op_frame_eq_spec op addr payload hop haddr hlen hb
  constructor
  · intro hs
    obtain ⟨ok, s', h, htx⟩ := reg_op_exchange_tx op addr payload payload.length s (le_refl _)
    exact ⟨ok, s', by rw [reg_op_synced fuel op addr payload _ s hs, h], by rw [htx, hfr]⟩
  · intro hs s1 hsync
    obtain ⟨ok, s', h, htx⟩ := reg_op_exchange_tx op addr payload payload.length s1 (le_refl _)
    have hsf := remregs_sync_frame fuel s true s1 hsync
    refine ⟨ok, s', ?_, by rw [htx, hfr, hsf.1]⟩
    simp only [reg_op, hs, if_true, hsync]
    exact h

/-- C1, at a concrete input: a multibyte write of `[1, 2, 3]` to address
`0x2A5`, on a Synced link and on a fresh link whose peer echoes `0xAA`. -/
theorem C1_reg_op_transmits_frame_witness :
    (∃ ok s', reg_op 1 7 0x2A5 [1, 2, 3] 3 (synced_state wire_silent) = some (ok, s') ∧
      txBytes s'.trace = [0x1E, 0xA5, 3, 1, 2, 3]) ∧
    (∃ ok s', reg_op 1 7 0x2A5 [1, 2, 3] 3 (init_state (wire_at 25 [0xAA])) = some (ok, s') ∧
      txBytes s'.trace = preamble ++ [0x1E, 0xA5, 3, 1, 2, 3]) :=
  ⟨(C1_reg_op_transmits_frame 1 7 0x2A5 [1, 2, 3] (synced_state wire_silent)
      (by decide) (by decide) (by decide) (by decide)).1 rfl,
   (C1_reg_op_transmits_frame 1 7 0x2A5 [1, 2, 3] (init_state (wire_at 25 [0xAA]))
      (by decide) (by decide) (by decide) (by decide)).2 rfl
      ((remregs_sync 1 (init_state (wire_at 25 [0xAA]))).getD (false, init_state wire_silent)).2
      rfl⟩

set_option maxRecDepth 100000 in
/-- C2: evaluation of the three fixed-width reads when `reg_op` fails, once
for each kind of failure (the peer answers NAK; no response byte arrives;
the handshake times out).  `get_reg_8` returns `0xFF`, but `get_reg_16` and
`get_reg_32` return `0xFF` as well, not `0xFFFF` and `0xFFFFFFFF`. -/
theorem C2_get_reg_failure_values :
    ((get_reg_8 0 5 (synced_state (wire_at 1 [NAK]))).map Prod.fst = some 0xFF ∧
      (get_reg_16 0 5 (synced_state (wire_at 1 [NAK]))).map Prod.fst = some 0xFF ∧
      (get_reg_32 0 5 (synced_state (wire_at 1 [NAK]))).map Prod.fst = some 0xFF) ∧
    ((get_reg_8 0 5 (synced_state wire_silent)).map Prod.fst = some 0xFF ∧
      (get_reg_16 0 5 (synced_state wire_silent)).map Prod.fst = some 0xFF ∧
      (get_reg_32 0 5 (synced_state wire_silent)).map Prod.fst = some 0xFF) ∧
    ((get_reg_8 250 5 (init_state wire_silent)).map Prod.fst = some 0xFF ∧
      (get_reg_16 250 5 (init_state wire_silent)).map Prod.fst = some 0xFF ∧
      (get_reg_32 250 5 (init_state wire_silent)).map Prod.fst = some 0xFF) := by
  decide

/-- C3: on a Synced link, for every address and value `v`: when the response
byte is ACK, `set_reg_8/16/32` return success and have transmitted the
two-byte header followed by `v` as 1, 2 or 4 bytes, least significant first;
and when the Byte Reader yields ACK followed by exactly those bytes,
`get_reg_8/16/32` return `v` (for `v` of the register's width). -/
theorem C3_fixed_width_round_trip (fuel addr v : Nat) (s : State) (hs : s.sync_state = true) :
    (∀ s1 s2, reg_op_request ROP_WRITE_8 addr [v % 256] 1 s = some s1 →
      UART_getch s1 = some (ACK, s2) →
      set_reg_8 fuel addr v s = some (true, s2) ∧
      txBytes s2.trace = txBytes s.trace ++ reg_op_header ROP_WRITE_8 addr ++ [v % 256]) ∧
    (∀ s1 s2, reg_op_request ROP_WRITE_16 addr [v % 256, v / 256 % 256] 2 s = some s1 →
      UART_getch s1 = some (ACK, s2) →
      set_reg_16 fuel addr v s = some (true, s2) ∧
      txBytes s2.trace =
        txBytes s.trace ++ reg_op_header ROP_WRITE_16 addr ++ [v % 256, v / 256 % 256]) ∧
    (∀ s1 s2,
      reg_op_request ROP_WRITE_32 addr
        [v % 256, v / 256 % 256, v / 65536 % 256, v / 16777216 % 256] 4 s = some s1 →
      UART_getch s1 = some (ACK, s2) →
      set_reg_32 fuel addr v s = some (true, s2) ∧
      txBytes s2.trace = txBytes s.trace ++ reg_op_header ROP_WRITE_32 addr ++
        [v % 256, v / 256 % 256, v / 65536 % 256, v / 16777216 % 256]) ∧
    (∀ s1 s2 s3, v < 256 → reg_op_request ROP_READ_8 addr [] 0 s = some s1 →
      UART_getch s1 = some (ACK, s2) → UART_getch s2 = some (v % 256, s3) →
      get_reg_8 fuel addr s = some (v, s3)) ∧
    (∀ s1 s2 s3 s4, v < 65536 → reg_op_request ROP_READ_16 addr [] 0 s = some s1 →
      UART_getch s1 = some (ACK, s2) → UART_getch s2 = some (v % 256, s3) →
      UART_getch s3 = some (v / 256 % 256, s4) →
      get_reg_16 fuel addr s = some (v, s4)) ∧
    (∀ s1 s2 s3 s4 s5 s6, v < 4294967296 → reg_op_request ROP_READ_32 addr [] 0 s = some s1 →
      UART_getch s1 = some (ACK, s2) → UART_getch s2 = some (v % 256, s3) →
      UART_getch s3 = some (v / 256 % 256, s4) → UART_getch s4 = some (v / 65536 % 256, s5) →
      UART_getch s5 = some (v / 16777216 % 256, s6) →
      get_reg_32 fuel addr s = some (v, s6)) := by
  refine ⟨?_, ?_, ?_, ?_, ?_, ?_⟩
  · intro s1 s2 h1 h2
    refine ⟨reg_op_acked fuel _ addr _ 1 s s1 s2 hs h1 h2, ?_⟩
    rw [reg_op_acked_tx _ addr _ 1 s s1 s2 (by simp) h1 h2]
    simp [reg_op_frame, ROP_WRITE_8, ROP_WRITE_MB]
  · intro s1 s2 h1 h2
    refine ⟨reg_op_acked fuel _ addr _ 2 s s1 s2 hs h1 h2, ?_⟩
    rw [reg_op_acked_tx _ addr _ 2 s s1 s2 (by simp) h1 h2]
    simp [reg_op_frame, ROP_WRITE_16, ROP_WRITE_MB]
  · intro s1 s2 h1 h2
    refine ⟨by rw [set_reg_32, le_bytes_four]; exact reg_op_acked fuel _ addr _ 4 s s1 s2 hs h1 h2,
      ?_⟩
    rw [reg_op_acked_tx _ addr _ 4 s s1 s2 (by simp) h1 h2]
    simp [reg_op_frame, ROP_WRITE_32, ROP_WRITE_MB]
  · intro s1 s2 s3 hv h1 h2 h3
    have hr := reg_op_acked fuel _ addr _ 0 s s1 s2 hs h1 h2
    simp only [get_reg_8, hr, h3]
    congr 2
    omega
  · intro s1 s2 s3 s4 hv h1 h2 h3 h4
    have hr := reg_op_acked fuel _ addr _ 0 s s1 s2 hs h1 h2
    obtain ⟨res, hres, e0, e1⟩ := UART_read_two (fun _ => 0) s2 s3 s4 _ _ h3 h4
    simp only [get_reg_16, hr, hres, e0, e1]
    congr 2
    omega
  · intro s1 s2 s3 s4 s5 s6 hv h1 h2 h3 h4 h5 h6
    have hr := reg_op_acked fuel _ addr _ 0 s s1 s2 hs h1 h2
    obtain ⟨res, hres, e0, e1, e2, e3⟩ :=
      UART_read_four (fun _ => 0) s2 s3 s4 s5 s6 _ _ _ _ h3 h4 h5 h6
    simp only [get_reg_32, hr, hres, e0, e1, e2, e3]
    congr 2
    omega

/-- C3, at the input of the specification: `set_reg_16(5, 0x1234)` answered
by ACK sends payload `0x34, 0x12`; `get_reg_16(5)` answered by ACK, `0x34`,
`0x12` returns `0x1234`. -/
theorem C3_fixed_width_round_trip_witness :
    ((set_reg_16 0 5 0x1234 (synced_state (wire_at 4 [ACK]))).map
        (fun r => (r.1, txBytes r.2.trace)) = some (true, [0x14, 0x05, 0x34, 0x12])) ∧
    (get_reg_16 0 5 (synced_state (wire_at 2 [ACK, 0x34, 0x12]))).map Prod.fst
      = some 0x1234 :=
  ⟨by
    have h := (C3_fixed_width_round_trip 0 5 0x1234 (synced_state (wire_at 4 [ACK])) rfl).2.1
      (after_request 5 5 [0x34, 0x12] 2 (synced_state (wire_at 4 [ACK])))
      (after_getch (after_request 5 5 [0x34, 0x12] 2 (synced_state (wire_at 4 [ACK]))))
      rfl rfl
    rw [h.1, Option.map_some', h.2]
    rfl,
   by
    have h := (C3_fixed_width_round_trip 0 5 0x1234
        (synced_state (wire_at 2 [ACK, 0x34, 0x12])) rfl).2.2.2.2.1
      (after_request 1 5 [] 0 (synced_state (wire_at 2 [ACK, 0x34, 0x12])))
      (after_getch (after_request 1 5 [] 0 (synced_state (wire_at 2 [ACK, 0x34, 0x12]))))
      (after_getch (after_getch
        (after_request 1 5 [] 0 (synced_state (wire_at 2 [ACK, 0x34, 0x12])))))
      (after_getch (after_getch (after_getch
        (after_request 1 5 [] 0 (synced_state (wire_at 2 [ACK, 0x34, 0x12]))))))
      (by decide) rfl rfl rfl rfl
    rw [h]
    rfl⟩

/-- C4: on a Synced link, when the response byte to the write is neither ACK
nor `0xFF` (NAK for one), `set_reg_8` returns failure, the link is still
Synced, and whatever register operation comes next returns having
transmitted its frame alone, with no handshake preamble before it. -/
theorem C4_nak_keeps_link_synced (fuel addr val r : Nat) (s s1 s2 : State)
    (hs : s.sync_state = true)
    (h1 : reg_op_request ROP_WRITE_8 addr (le_bytes 1 val) 1 s = some s1)
    (h2 : UART_getch s1 = some (r, s2)) (hack : r ≠ ACK) (hff : r ≠ 0xff) :
    set_reg_8 fuel addr val s = some (false, s2) ∧ s2.sync_state = true ∧
    ∀ (fuel' op' addr' : Nat) (data' : List Nat) (len' : Nat), len' ≤ data'.length →
      ∃ ok s3, reg_op fuel' op' addr' data' len' s2 = some (ok, s3) ∧
        txBytes s3.trace = txBytes s2.trace ++ reg_op_frame op' addr' data' len' := by
  have hsy : s2.sync_state = true := by
    obtain ⟨s1', hs1', -, hsy1, -, -⟩ :=
      reg_op_request_frame ROP_WRITE_8 addr (le_bytes 1 val) 1 s (by simp [le_bytes])
    rw [h1] at hs1'
    obtain rfl : s1 = s1' := by simpa using hs1'
    rw [(UART_getch_frame s1 r s2 h2).1, hsy1, hs]
  refine ⟨?_, hsy, ?_⟩
  · rw [set_reg_8, reg_op_synced fuel _ addr _ 1 s hs,
      reg_op_exchange_eq _ addr _ 1 s s1 s2 r h1 h2, if_neg hff, if_neg hack]
  · intro fuel' op' addr' data' len' hlen
    obtain ⟨ok, s3, h, htx⟩ := reg_op_exchange_tx op' addr' data' len' s2 hlen
    exact ⟨ok, s3, by rw [reg_op_synced fuel' op' addr' data' len' s2 hsy, h], htx⟩

/-- C4, at a concrete input: `set_reg_8(5, 0x42)` answered by NAK, followed
by `get_reg_8`'s request to address 7. -/
theorem C4_nak_keeps_link_synced_witness :
    set_reg_8 0 5 0x42 (synced_state (wire_at 2 [NAK])) =
      some (false, after_getch (after_request 4 5 [0x42] 1 (synced_state (wire_at 2 [NAK])))) ∧
    (after_getch (after_request 4 5 [0x42] 1 (synced_state (wire_at 2 [NAK])))).sync_state
      = true ∧
    ∃ ok s3, reg_op 0 ROP_READ_8 7 [] 0
        (after_getch (after_request 4 5 [0x42] 1 (synced_state (wire_at 2 [NAK])))) =
          some (ok, s3) ∧
      txBytes s3.trace = [0x10, 5, 0x42, 0, 7] :=
  have h := C4_nak_keeps_link_synced 0 5 0x42 NAK (synced_state (wire_at 2 [NAK]))
    (after_request 4 5 [0x42] 1 (synced_state (wire_at 2 [NAK])))
    (after_getch (after_request 4 5 [0x42] 1 (synced_state (wire_at 2 [NAK]))))
    rfl rfl rfl (by decide) (by decide)
  ⟨h.1, h.2.1, h.2.2 0 ROP_READ_8 7 [] 0 (le_refl _)⟩

/-- C5: for every `reg_op` call that starts Synced (and whose payload lies
inside the caller's buffer) the call returns, and with `r` the response byte
the Byte Reader returned: the link is Unsynced afterwards if and only if
`r = 0xFF`, in which case the call fails; for every other `r` the link is
still Synced. -/
theorem C5_resync_only_on_sentinel (fuel op addr : Nat) (data : List Nat) (len : Nat)
    (s : State) (hs : s.sync_state = true) (hlen : len ≤ data.length) :
    ∃ s1 r s2 ok s3, reg_op_request op addr data len s = some s1 ∧
      UART_getch s1 = some (r, s2) ∧
      reg_op fuel op addr data len s = some (ok, s3) ∧
      (s3.sync_state = false ↔ r = 0xff) ∧ (r = 0xff → ok = false) ∧
      (r ≠ 0xff → s3.sync_state = true) := by
  obtain ⟨s1, r, s2, h1, h2, hsy, -, he⟩ := reg_op_exchange_spec op addr data len s hlen
  rw [hs] at hsy
  rw [← reg_op_synced fuel op addr data len s hs] at he
  by_cases hff : r = 0xff
  · refine ⟨s1, r, s2, false, { s2 with sync_state := false }, h1, h2, ?_, ?_, ?_, ?_⟩
    · rw [he, if_pos hff]
    · exact ⟨fun _ => hff, fun _ => rfl⟩
    · exact fun _ => rfl
    · exact fun h => absurd hff h
  · by_cases hack : r = ACK
    · refine ⟨s1, r, s2, true, s2, h1, h2, ?_, ?_, ?_, ?_⟩
      · rw [he, if_neg hff, if_pos hack]
      · rw [hsy]; exact ⟨fun h => by simp at h, fun h => absurd h hff⟩
      · exact fun h => absurd h hff
      · exact fun _ => hsy
    · refine ⟨s1, r, s2, false, s2, h1, h2, ?_, ?_, ?_, ?_⟩
      · rw [he, if_neg hff, if_neg hack]
      · rw [hsy]; exact ⟨fun h => by simp at h, fun h => absurd h hff⟩
      · exact fun _ => rfl
      · exact fun _ => hsy

/-- C5, at a concrete input: a write to address 5 on a Synced link whose
peer stays silent. -/
theorem C5_resync_only_on_sentinel_witness :
    ∃ s1 r s2 ok s3,
      reg_op_request ROP_WRITE_8 5 [0x42] 1 (synced_state wire_silent) = some s1 ∧
      UART_getch s1 = some (r, s2) ∧
      reg_op 0 ROP_WRITE_8 5 [0x42] 1 (synced_state wire_silent) = some (ok, s3) ∧
      (s3.sync_state = false ↔ r = 0xff) ∧ (r = 0xff → ok = false) ∧
      (r ≠ 0xff → s3.sync_state = true) :=
  C5_resync_only_on_sentinel 0 ROP_WRITE_8 5 [0x42] 1 (synced_state wire_silent) rfl
    (by decide)

set_option maxRecDepth 100000 in
/-- C6 fails as stated: on a Synced link whose peer sends ACK and then
nothing, `get_reg_8(5)` returns `0xFF` and the link is still Synced
afterwards; and `get_reg_mb(5, ...)` reports success, with length `0xFF`,
the link still Synced as well. -/
theorem C6_payload_timeout_counterexample :
    (synced_state (wire_at 1 [ACK])).sync_state = true ∧
    AckThenSilence ROP_READ_8 5 (synced_state (wire_at 1 [ACK])) ∧
    (get_reg_8 0 5 (synced_state (wire_at 1 [ACK]))).map (fun r => (r.1, r.2.sync_state))
      = some (0xFF, true) ∧
    AckThenSilence ROP_READ_MB 5 (synced_state (wire_at 1 [ACK])) ∧
    ∃ res s', get_reg_mb 0 5 (fun _ => 0) 0 (synced_state (wire_at 1 [ACK]))
      = some (true, res, 0xFF, s') ∧ s'.sync_state = true := by
  have hmb : AckThenSilence ROP_READ_MB 5 (synced_state (wire_at 1 [ACK])) :=
    ⟨after_request 3 5 [] 0 (synced_state (wire_at 1 [ACK])),
      after_getch (after_request 3 5 [] 0 (synced_state (wire_at 1 [ACK]))), rfl, rfl, rfl,
      wire_at_silent_after 1 [ACK] _ rfl (by decide)⟩
  exact ⟨rfl, ⟨after_request 0 5 [] 0 (synced_state (wire_at 1 [ACK])),
    after_getch (after_request 0 5 [] 0 (synced_state (wire_at 1 [ACK]))), rfl, rfl, rfl,
    wire_at_silent_after 1 [ACK] _ rfl (by decide)⟩, by decide, hmb,
    get_reg_mb_ack_then_silence 0 5 (fun _ => 0) 0 _ rfl hmb⟩

/-- C6, amended: on a Synced link where the peer sends ACK but no payload
byte arrives, `get_reg_8`, `get_reg_16` and `get_reg_32` return the all-ones
value of their width, `get_reg_mb` returns as well, and after each of the
four the link is still Synced, so that the next operation transmits its
frame with no handshake before it. -/
theorem C6_payload_timeout_keeps_synced (fuel addr : Nat) (s : State)
    (hs : s.sync_state = true) :
    (AckThenSilence ROP_READ_8 addr s →
      ∃ s', get_reg_8 fuel addr s = some (0xFF, s') ∧ s'.sync_state = true ∧
        NextNeedsNoHandshake s') ∧
    (AckThenSilence ROP_READ_16 addr s →
      ∃ s', get_reg_16 fuel addr s = some (0xFFFF, s') ∧ s'.sync_state = true ∧
        NextNeedsNoHandshake s') ∧
    (AckThenSilence ROP_READ_32 addr s →
      ∃ s', get_reg_32 fuel addr s = some (0xFFFFFFFF, s') ∧ s'.sync_state = true ∧
        NextNeedsNoHandshake s') ∧
    (AckThenSilence ROP_READ_MB addr s → ∀ (data : Nat → Nat) (len : Nat),
      ∃ r s', get_reg_mb fuel addr data len s = some (r, s') ∧ s'.2.2.sync_state = true ∧
        NextNeedsNoHandshake s'.2.2) := by
  have hsync : ∀ op s1 s2, reg_op_request op addr [] 0 s = some s1 →
      UART_getch s1 = some (ACK, s2) → s2.sync_state = true := by
    intro op s1 s2 h1 h2
    obtain ⟨s1', hs1', -, hsy1, -, -⟩ := reg_op_request_frame op addr [] 0 s (by simp)
    rw [h1] at hs1'
    obtain rfl : s1 = s1' := by simpa using hs1'
    rw [(UART_getch_frame s1 ACK s2 h2).1, hsy1, hs]
  refine ⟨?_, ?_, ?_, ?_⟩
  · rintro ⟨s1, s2, h1, h2, he, hq⟩
    have hr := reg_op_acked fuel _ addr _ 0 s s1 s2 hs h1 h2
    obtain ⟨s3, h3, -, -, hsy3⟩ := UART_getch_silent s2 he hq
    have hsy : s3.sync_state = true := by rw [hsy3, hsync _ s1 s2 h1 h2]
    exact ⟨s3, by simp only [get_reg_8, hr, h3], hsy, next_needs_no_handshake s3 hsy⟩
  · rintro ⟨s1, s2, h1, h2, he, hq⟩
    have hr := reg_op_acked fuel _ addr _ 0 s s1 s2 hs h1 h2
    obtain ⟨s3, h3, he3, hq3, hsy3⟩ := UART_getch_silent s2 he hq
    obtain ⟨s4, h4, -, -, hsy4⟩ := UART_getch_silent s3 he3 hq3
    obtain ⟨res, hres, e0, e1⟩ := UART_read_two (fun _ => 0) s2 s3 s4 _ _ h3 h4
    have hsy : s4.sync_state = true := by rw [hsy4, hsy3, hsync _ s1 s2 h1 h2]
    exact ⟨s4, by simp only [get_reg_16, hr, hres, e0, e1], hsy,
      next_needs_no_handshake s4 hsy⟩
  · rintro ⟨s1, s2, h1, h2, he, hq⟩
    have hr := reg_op_acked fuel _ addr _ 0 s s1 s2 hs h1 h2
    obtain ⟨s3, h3, he3, hq3, hsy3⟩ := UART_getch_silent s2 he hq
    obtain ⟨s4, h4, he4, hq4, hsy4⟩ := UART_getch_silent s3 he3 hq3
    obtain ⟨s5, h5, he5, hq5, hsy5⟩ := UART_getch_silent s4 he4 hq4
    obtain ⟨s6, h6, -, -, hsy6⟩ := UART_getch_silent s5 he5 hq5
    obtain ⟨res, hres, e0, e1, e2, e3⟩ :=
      UART_read_four (fun _ => 0) s2 s3 s4 s5 s6 _ _ _ _ h3 h4 h5 h6
    have hsy : s6.sync_state = true := by
      rw [hsy6, hsy5, hsy4, hsy3, hsync _ s1 s2 h1 h2]
    exact ⟨s6, by simp only [get_reg_32, hr, hres, e0, e1, e2, e3], hsy,
      next_needs_no_handshake s6 hsy⟩
  · rintro ⟨s1, s2, h1, h2, -, -⟩ data len
    have hr := reg_op_acked fuel _ addr _ 0 s s1 s2 hs h1 h2
    obtain ⟨n, s3, h3⟩ := UART_getch_total s2
    obtain ⟨res, s4, h4, hsy4, -⟩ := UART_read_total data n s3
    have hsy : s4.sync_state = true := by
      rw [hsy4, (UART_getch_frame s2 n s3 h3).1, hsync _ s1 s2 h1 h2]
    exact ⟨true, (res, n, s4), by simp only [get_reg_mb, hr, h3, h4], hsy,
      next_needs_no_handshake s4 hsy⟩


/-- C6 amended, at a concrete input: `get_reg_16(5)` on a Synced link whose
peer sends ACK and then nothing. -/
theorem C6_payload_timeout_keeps_synced_witness :
    ∃ s', get_reg_16 0 5 (synced_state (wire_at 1 [ACK])) = some (0xFFFF, s') ∧
      s'.sync_state = true ∧ NextNeedsNoHandshake s' :=
  (C6_payload_timeout_keeps_synced 0 5 (synced_state (wire_at 1 [ACK])) rfl).2.1
    ⟨after_request 1 5 [] 0 (synced_state (wire_at 1 [ACK])),
      after_getch (after_request 1 5 [] 0 (synced_state (wire_at 1 [ACK]))), rfl, rfl, rfl,
      wire_at_silent_after 1 [ACK] _ rfl (by decide)⟩

/-- C7: from any link state with an empty receive buffer, if the wire is
silent while the preamble goes out and during the first `d < 250` polls, and
the next poll finds the single character `0xAA` or `0x55`, then
`remregs_sync` returns success with the link Synced, having transmitted
exactly 24 bytes `0xFF` followed by `0xAA`.  And whenever `remregs_sync`
returns, from any state, it has transmitted exactly that preamble and the
link is Synced if and only if it returned success. -/
theorem C7_handshake_success (fuel d b : Nat) (s : State) (hd : d < 250) (hf : d + 1 ≤ fuel)
    (he : s.idx_in = s.idx_out) (hq : Quiet s (25 + d))
    (hw : (s.wire (s.now + 25 + d)).chars = [⟨b, false⟩]) (hb : b = 0xAA ∨ b = 0x55) :
    (∃ s', remregs_sync fuel s = some (true, s') ∧ s'.sync_state = true ∧
      txBytes s'.trace = txBytes s.trace ++ (List.replicate 24 0xFF ++ [0xAA])) ∧
    (∀ (fuel0 : Nat) (s0 : State) (ok : Bool) (s' : State),
      remregs_sync fuel0 s0 = some (ok, s') →
      txBytes s'.trace = txBytes s0.trace ++ (List.replicate 24 0xFF ++ [0xAA]) ∧
      (s'.sync_state = true ↔ ok = true)) := by
  constructor
  · obtain ⟨s', h, hsy, -, -, -⟩ := remregs_sync_reply fuel d b s hd hf he hq hw hb
    exact ⟨s', h, hsy, (remregs_sync_frame fuel s true s' h).1⟩
  · intro fuel0 s0 ok s' h
    have hfr := remregs_sync_frame fuel0 s0 ok s' h
    exact ⟨hfr.1, by rw [hfr.2.2]⟩

set_option maxRecDepth 100000 in
/-- C7, at concrete inputs: a fresh link whose peer echoes `0xAA` at once,
and a Synced link whose peer answers `0x55` at the last possible poll. -/
theorem C7_handshake_success_witness :
    (∃ s', remregs_sync 1 (init_state (wire_at 25 [0xAA])) = some (true, s') ∧
      s'.sync_state = true ∧
      txBytes s'.trace = List.replicate 24 0xFF ++ [0xAA]) ∧
    (∃ s', remregs_sync 250 (synced_state (wire_at 274 [0x55])) = some (true, s') ∧
      s'.sync_state = true ∧
      txBytes s'.trace = List.replicate 24 0xFF ++ [0xAA]) :=
  ⟨(C7_handshake_success 1 0 0xAA (init_state (wire_at 25 [0xAA])) (by decide) (by decide) rfl
      (by decide) rfl (Or.inl rfl)).1,
   (C7_handshake_success 250 249 0x55 (synced_state (wire_at 274 [0x55])) (by decide)
      (by decide) rfl (by decide) rfl (Or.inr rfl)).1⟩

set_option maxRecDepth 100000 in
/-- C8: from any link state with an empty receive buffer, if nothing arrives
while the preamble goes out and during 250 polls, `remregs_sync` returns
failure with the link Unsynced; what it did is exactly: transmit 24 bytes
`0xFF` and one `0xAA`, then 250 times (delay 1 ms, one watchdog clear). -/
theorem C8_handshake_timeout (fuel : Nat) (s : State) (hf : 250 ≤ fuel)
    (he : s.idx_in = s.idx_out) (hq : Quiet s 275) :
    ∃ s', remregs_sync fuel s = some (false, s') ∧ s'.sync_state = false ∧
      s'.trace = s.trace ++ List.replicate 24 (Event.tx 0xFF) ++ [Event.tx 0xAA] ++
        sync_idle_trace 250 ∧
      txBytes s'.trace = txBytes s.trace ++ (List.replicate 24 0xFF ++ [0xAA]) ∧
      (sync_idle_trace 250).count (Event.delay 1) = 250 ∧
      (sync_idle_trace 250).count Event.clrwdt = 250 ∧
      (sync_idle_trace 250).length = 500 := by
  obtain ⟨s', h, hsy, -, -, -, -, -, htr⟩ := remregs_sync_quiet fuel s hf he hq
  refine ⟨s', h, hsy, htr, (remregs_sync_frame fuel s false s' h).1, ?_, ?_, ?_⟩ <;> decide

set_option maxRecDepth 100000 in
/-- C8, at concrete inputs: the handshake on a silent wire, started Unsynced
and started Synced. -/
theorem C8_handshake_timeout_witness :
    (∃ s', remregs_sync 250 (init_state wire_silent) = some (false, s') ∧
      s'.sync_state = false ∧ txBytes s'.trace = List.replicate 24 0xFF ++ [0xAA]) ∧
    (∃ s', remregs_sync 250 (synced_state wire_silent) = some (false, s') ∧
      s'.sync_state = false ∧ txBytes s'.trace = List.replicate 24 0xFF ++ [0xAA]) :=
  ⟨by
    obtain ⟨s', h, hsy, -, htx, -⟩ := C8_handshake_timeout 250 (init_state wire_silent)
      (by decide) rfl (by decide)
    exact ⟨s', h, hsy, htx⟩,
   by
    obtain ⟨s', h, hsy, -, htx, -⟩ := C8_handshake_timeout 250 (synced_state wire_silent)
      (by decide) rfl (wire_silent_quiet _ 275 rfl)
    exact ⟨s', h, hsy, htx⟩⟩

/-- C9: for every empty buffer (cursors equal, anywhere in 0..31) and every
sequence of fewer than 32 bytes, that many pushes by the byte-arrival
handler followed by that many calls of the Byte Reader return exactly the
pushed bytes in order; no call waits (no delay is logged, no window
passes), and the buffer is empty again. -/
theorem C9_ring_buffer_fifo (bytes : List Nat) (s : State) (hp : s.idx_in < 32)
    (he : s.idx_in = s.idx_out) (hn : bytes.length < 32) (hb : ∀ b ∈ bytes, b ≤ 255) :
    ∃ s', UART_getch_n bytes.length (push_all bytes s) = some (bytes, s') ∧
      s'.idx_in = s'.idx_out ∧ s'.trace = s.trace ∧ s'.now = s.now := by
  obtain ⟨h1, h2, -, -, -, h6, h7, h8⟩ := push_all_spec bytes s (by rw [← he]; exact hp)
  obtain ⟨s', h, e1, -, -, -, e5, e6⟩ := UART_getch_n_spec bytes (push_all bytes s)
    (by rw [h2]; exact hp) (by rw [h1, h2, he]) hn
    (by
      intro i hi
      rw [h2, he, h8 i hi (by omega)]
      have : bytes.getD i 0 ≤ 255 := by
        rw [List.getD_eq_getElem _ _ hi]
        exact hb _ (List.getElem_mem hi)
      omega)
  exact ⟨s', h, e1, by rw [e6, h7], by rw [e5, h6]⟩

/-- C9, at a concrete input: three bytes pushed and popped across the end of
the buffer. -/
theorem C9_ring_buffer_fifo_witness :
    ∃ s', UART_getch_n 3 (push_all [0x11, 0x22, 0x33] wrap_state) =
        some ([0x11, 0x22, 0x33], s') ∧
      s'.idx_in = s'.idx_out ∧ s'.trace = wrap_state.trace ∧ s'.now = wrap_state.now :=
  C9_ring_buffer_fifo [0x11, 0x22, 0x33] wrap_state (by decide) rfl (by decide) (by decide)

/-- C10: for every empty buffer and every 33 bytes `b0 :: rest` pushed with
no pop in between: no push reports anything (overrun flag, link state and
trace are as before, the read cursor has not moved); the slot that held
`b0` after the first push holds the 33rd byte in the end, and the 32 slots
hold the bytes 2 to 33; the write cursor is one past the read cursor, so
the one byte that can still be popped is the 33rd, and `b0` never is. -/
theorem C10_ring_buffer_overflow (b0 : Nat) (rest : List Nat) (s : State)
    (hp : s.idx_in < 32) (he : s.idx_in = s.idx_out) (hn : rest.length = 32)
    (hb : ∀ b ∈ b0 :: rest, b ≤ 255) :
    (push_all [b0] s).UART_buffer s.idx_in = b0 ∧
    (push_all (b0 :: rest) s).UART_buffer s.idx_in = rest.getD 31 0 ∧
    (∀ i, i < 32 → (push_all (b0 :: rest) s).UART_buffer ((s.idx_in + 1 + i) % 32)
      = rest.getD i 0) ∧
    (push_all (b0 :: rest) s).OERR2 = s.OERR2 ∧
    (push_all (b0 :: rest) s).sync_state = s.sync_state ∧
    (push_all (b0 :: rest) s).trace = s.trace ∧
    (push_all (b0 :: rest) s).idx_in = s.idx_in ∧
    (push_all (b0 :: rest) s).idx_out = (s.idx_in + 1) % 32 ∧
    ∃ s', UART_getch (push_all (b0 :: rest) s) = some (rest.getD 31 0, s') ∧
      s'.idx_in = s'.idx_out := by
  have hpo : s.idx_out < 32 := by rw [← he]; exact hp
  have hsmall : ∀ i, i < 32 → rest.getD i 0 % 256 = rest.getD i 0 := by
    intro i hi
    have : rest.getD i 0 ≤ 255 := by
      rw [List.getD_eq_getElem _ _ (by omega)]
      exact hb _ (List.mem_cons_of_mem _ (List.getElem_mem _))
    omega
  obtain ⟨-, -, -, -, -, -, -, f8⟩ := push_all_spec [b0] s hpo
  obtain ⟨h1, h2, h3, h4, -, -, h7, h8⟩ := push_all_spec (b0 :: rest) s hpo
  simp only [List.length_cons, hn] at h1 h8
  have hslot : ∀ i, i < 32 → (push_all (b0 :: rest) s).UART_buffer ((s.idx_in + 1 + i) % 32)
      = rest.getD i 0 := by
    intro i hi
    have := h8 (i + 1) (by omega) (by omega)
    rw [List.getD_cons_succ, hsmall i hi, ← he] at this
    rw [← this]
    congr 2
    omega
  have hlast : (push_all (b0 :: rest) s).UART_buffer s.idx_in = rest.getD 31 0 := by
    have := hslot 31 (by omega)
    rw [← this]
    congr 1
    omega
  refine ⟨?_, hlast, hslot, h4, h3, h7, h2, by rw [h1, ← he]; omega, ?_⟩
  · have := f8 0 (by simp) (by simp)
    have hb0 : b0 ≤ 255 := hb b0 (List.mem_cons_self _ _)
    rw [← he, show (s.idx_in + 0) % 32 = s.idx_in by omega] at this
    rw [this]
    simp only [List.getD_cons_zero]
    omega
  · have hne : (push_all (b0 :: rest) s).idx_in ≠ (push_all (b0 :: rest) s).idx_out := by
      rw [h1, h2, ← he]; omega
    have hg := UART_getch_ready _ hne
    rw [h2, hlast] at hg
    refine ⟨_, hg, ?_⟩
    show (s.idx_in + 1) % 256 % BUFFER_SIZE = (push_all (b0 :: rest) s).idx_out
    rw [h1, ← he]
    simp only [BUFFER_SIZE]
    omega

/-- C10, at a concrete input: the bytes 1, 2, ..., 33 pushed into the fresh
buffer; slot 0 held 1 and holds 33 in the end, and the only byte the Byte
Reader can still pop is 33. -/
theorem C10_ring_buffer_overflow_witness :
    (push_all [1] (init_state wire_silent)).UART_buffer 0 = 1 ∧
    (push_all (List.range' 1 33) (init_state wire_silent)).UART_buffer 0 = 33 ∧
    (push_all (List.range' 1 33) (init_state wire_silent)).OERR2 = false ∧
    ∃ s', UART_getch (push_all (List.range' 1 33) (init_state wire_silent)) = some (33, s') ∧
      s'.idx_in = s'.idx_out :=
  have h := C10_ring_buffer_overflow 1 (List.range' 2 32) (init_state wire_silent) (by decide) rfl
    rfl (by decide)
  ⟨h.1, h.2.1, h.2.2.2.1, h.2.2.2.2.2.2.2.2⟩

/-- C11: on a Synced link, when the Byte Reader yields ACK, then the byte
`L`, then the bytes `bytes` (`L` of them), `get_reg_mb` returns success,
stores `L` in `*len`, has `bytes` in `data[0..L)` in order and every other
slot of `data` as it was; and whenever `reg_op` itself fails, from any
state, `get_reg_mb` returns failure with `data` and `*len` as they were. -/
theorem C11_get_reg_mb_decode (fuel addr : Nat) (data : Nat → Nat) (len : Nat) (s : State)
    (hs : s.sync_state = true) :
    (∀ (L : Nat) (bytes : List Nat) (s1 s2 s3 s4 : State), L ≤ 29 →
      reg_op_request ROP_READ_MB addr [] 0 s = some s1 →
      UART_getch s1 = some (ACK, s2) → UART_getch s2 = some (L, s3) →
      UART_getch_n L s3 = some (bytes, s4) →
      ∃ res, get_reg_mb fuel addr data len s = some (true, res, L, s4) ∧
        (∀ j, j < L → res j = bytes.getD j 0) ∧ (∀ j, L ≤ j → res j = data j)) ∧
    (∀ (fuel0 : Nat) (s0 s' : State),
      reg_op fuel0 ROP_READ_MB addr [] 0 s0 = some (false, s') →
      get_reg_mb fuel0 addr data len s0 = some (false, data, len, s')) := by
  constructor
  · intro L bytes s1 s2 s3 s4 _ h1 h2 h3 h4
    have hr := reg_op_acked fuel _ addr _ 0 s s1 s2 hs h1 h2
    obtain ⟨res, hres, hin, hout⟩ := UART_read_loop_spec L 0 data s3 s4 bytes h4
    refine ⟨res, ?_, ?_, ?_⟩
    · simp only [get_reg_mb, hr, h3, UART_read, hres]
    · intro j hj
      have := hin j hj
      rwa [Nat.zero_add] at this
    · intro j hj
      exact hout j (Or.inr (by omega))
  · intro fuel0 s0 s' h
    simp only [get_reg_mb, h]

/-- C11, at a concrete input: the peer answers ACK, length 3 and the bytes
`0x11, 0x22, 0x33`; the caller's buffer held `0xEE` everywhere. -/
theorem C11_get_reg_mb_decode_witness :
    (get_reg_mb 0 5 (fun _ => 0xEE) 0 (synced_state (wire_at 2 [ACK, 3, 0x11, 0x22, 0x33]))).map
      (fun r => (r.1, r.2.2.1, (List.range 5).map r.2.1))
      = some (true, 3, [0x11, 0x22, 0x33, 0xEE, 0xEE]) := by
  obtain ⟨res, h, hin, hout⟩ :=
    (C11_get_reg_mb_decode 0 5 (fun _ => 0xEE) 0
      (synced_state (wire_at 2 [ACK, 3, 0x11, 0x22, 0x33])) rfl).1 3 [0x11, 0x22, 0x33]
      (after_request 3 5 [] 0 (synced_state (wire_at 2 [ACK, 3, 0x11, 0x22, 0x33])))
      (after_getch (after_request 3 5 [] 0
        (synced_state (wire_at 2 [ACK, 3, 0x11, 0x22, 0x33]))))
      (after_getch (after_getch (after_request 3 5 [] 0
        (synced_state (wire_at 2 [ACK, 3, 0x11, 0x22, 0x33])))))
      (after_getch (after_getch (after_getch (after_getch (after_getch (after_request 3 5 [] 0
        (synced_state (wire_at 2 [ACK, 3, 0x11, 0x22, 0x33]))))))))
      (by decide) rfl rfl rfl rfl
  rw [h]
  have e0 := hin 0 (by decide)
  have e1 := hin 1 (by decide)
  have e2 := hin 2 (by decide)
  have e3 := hout 3 (by decide)
  have e4 := hout 4 (by decide)
  simp only [Option.map_some', List.range, List.range.loop, List.map] at *
  simp [e0, e1, e2, e3, e4]

set_option maxRecDepth 100000 in
/-- C12: evaluation of `get_reg_mb(5, data, len)` on a Synced link whose peer
answers ACK, the length byte 30 and the 30 bytes 1, 2, ..., 30: it reports
success, stores 30 in `*len` and writes `data[29]`, the slot after the end of
a 29-byte buffer; and when the peer sends nothing after ACK it stores `0xFF`
in `*len`. -/
theorem C12_get_reg_mb_length_unchecked :
    (get_reg_mb 0 5 (fun _ => 0) 0
        (synced_state (wire_two 2 [ACK, 30] (List.range' 1 30)))).map
      (fun r => (r.1, r.2.2.1, r.2.1 28, r.2.1 29)) = some (true, 30, 29, 30) ∧
    ∃ res s', get_reg_mb 0 5 (fun _ => 0) 0 (synced_state (wire_at 1 [ACK]))
      = some (true, res, 0xFF, s') := by
  refine ⟨by decide, ?_⟩
  obtain ⟨res, s', h, -⟩ := get_reg_mb_ack_then_silence 0 5 (fun _ => 0) 0
    (synced_state (wire_at 1 [ACK])) rfl
    ⟨after_request 3 5 [] 0 (synced_state (wire_at 1 [ACK])),
      after_getch (after_request 3 5 [] 0 (synced_state (wire_at 1 [ACK]))), rfl, rfl, rfl,
      wire_at_silent_after 1 [ACK] _ rfl (by decide)⟩
  exact ⟨res, s', h⟩

/-- C13: for every address in 0..1023 and every payload of at most 29 bytes,
`set_reg_mb` on a Synced link returns, having transmitted exactly
`0x1C | (addr >> 8)`, `addr & 0xFF`, the length byte and the payload in
order, `len + 3` bytes in all; and it returns success exactly when the
response byte of the exchange is ACK. -/
theorem C13_set_reg_mb_frame (fuel addr : Nat) (payload : List Nat) (s : State)
    (hs : s.sync_state = true) (haddr : addr ≤ 1023) (hlen : payload.length ≤ 29)
    (hb : ∀ b ∈ payload, b ≤ 255) :
    ∃ s1 r s2 ok s3, reg_op_request ROP_WRITE_MB addr payload payload.length s = some s1 ∧
      UART_getch s1 = some (r, s2) ∧
      set_reg_mb fuel addr payload payload.length s = some (ok, s3) ∧
      (ok = true ↔ r = ACK) ∧
      txBytes s3.trace = txBytes s.trace ++
        ([0x1C ||| (addr >>> 8), addr &&& 0xFF, payload.length] ++ payload) ∧
      ([0x1C ||| (addr >>> 8), addr &&& 0xFF, payload.length] ++ payload).length
        = payload.length + 3 := by
  obtain ⟨s1, r, s2, h1, h2, -, htx, he⟩ :=
    reg_op_exchange_spec ROP_WRITE_MB addr payload payload.length s (le_refl _)
  rw [← reg_op_synced fuel _ addr payload _ s hs] at he
  have hfr := reg_op_frame_eq_spec ROP_WRITE_MB addr payload (by decide) haddr (by omega) hb
  have hsp : spec_frame ROP_WRITE_MB addr payload =
      [0x1C ||| (addr >>> 8), addr &&& 0xFF, payload.length] ++ payload := by
    simp [spec_frame, ROP_WRITE_MB]
  rw [hfr, hsp] at htx
  have hlen3 : ([0x1C ||| (addr >>> 8), addr &&& 0xFF, payload.length] ++ payload).length
      = payload.length + 3 := by
    simp only [List.length_append, List.length_cons, List.length_nil]
    omega
  by_cases hff : r = 0xff
  · refine ⟨s1, r, s2, false, { s2 with sync_state := false }, h1, h2, ?_, ?_, htx, hlen3⟩
    · rw [set_reg_mb, he, if_pos hff]
    · constructor
      · intro h; simp at h
      · intro h; rw [hff] at h; simp [ACK] at h
  · by_cases hack : r = ACK
    · exact ⟨s1, r, s2, true, s2, h1, h2, by rw [set_reg_mb, he, if_neg hff, if_pos hack],
        ⟨fun _ => hack, fun _ => rfl⟩, htx, hlen3⟩
    · refine ⟨s1, r, s2, false, s2, h1, h2, by rw [set_reg_mb, he, if_neg hff, if_neg hack],
        ?_, htx, hlen3⟩
      constructor
      · intro h; simp at h
      · intro h; exact absurd h hack

/-- C13, at the input of the specification: 29 payload bytes; the length
byte 29 goes out followed by the 29 bytes, and the ACK that follows makes the
call succeed. -/
theorem C13_set_reg_mb_frame_witness :
    (set_reg_mb 0 0x2A5 (List.range' 1 29) 29 (synced_state (wire_at 32 [ACK]))).map
      (fun r => (r.1, txBytes r.2.trace))
      = some (true, [0x1E, 0xA5, 29] ++ List.range' 1 29) := by
  obtain ⟨s1, r, s2, ok, s3, h1, h2, h3, hok, htx, -⟩ :=
    C13_set_reg_mb_frame 0 0x2A5 (List.range' 1 29) (synced_state (wire_at 32 [ACK])) rfl
      (by decide) (by decide) (by decide)
  have h1' : reg_op_request ROP_WRITE_MB 0x2A5 (List.range' 1 29) 29
      (synced_state (wire_at 32 [ACK])) =
      some (after_request 7 0x2A5 (List.range' 1 29) 29 (synced_state (wire_at 32 [ACK]))) :=
    rfl
  have h2' : UART_getch (after_request 7 0x2A5 (List.range' 1 29) 29
      (synced_state (wire_at 32 [ACK]))) = some (ACK, after_getch (after_request 7 0x2A5
        (List.range' 1 29) 29 (synced_state (wire_at 32 [ACK])))) := rfl
  have e1 : List.length (List.range' 1 29) = 29 := rfl
  rw [e1] at h1 h3
  rw [h1'] at h1
  obtain rfl : _ = s1 := by simpa using h1
  rw [h2'] at h2
  have hr : r = ACK := by
    have := congrArg (fun o => o.map Prod.fst) h2
    simpa using this.symm
  rw [h3, Option.map_some', hok.2 hr, htx]
  rfl

/-- C14: when `reg_op` is called Unsynced and the handshake fails, `reg_op`
returns failure in the very state in which `remregs_sync` returned: nothing
is transmitted after the 25 preamble bytes, no response byte is read, and
the link is Unsynced.  If moreover the receive buffer was empty and nothing
arrived during the handshake, cursors and buffer are as they were. -/
theorem C14_fail_fast_on_handshake_failure (fuel op addr : Nat) (data : List Nat) (len : Nat)
    (s s1 : State) (hs : s.sync_state = false)
    (hfail : remregs_sync fuel s = some (false, s1)) :
    reg_op fuel op addr data len s = some (false, s1) ∧
    txBytes s1.trace = txBytes s.trace ++ (List.replicate 24 0xFF ++ [0xAA]) ∧
    s1.sync_state = false ∧
    (s.idx_in = s.idx_out → Quiet s 275 → 250 ≤ fuel →
      s1.idx_in = s.idx_in ∧ s1.idx_out = s.idx_out ∧ s1.UART_buffer = s.UART_buffer) := by
  have hfr := remregs_sync_frame fuel s false s1 hfail
  refine ⟨?_, hfr.1, hfr.2.2, ?_⟩
  · simp only [reg_op, hs, if_true, hfail]
  · intro he hq hf
    obtain ⟨s', h, -, h1, h2, h3, -⟩ := remregs_sync_quiet fuel s hf he hq
    rw [hfail] at h
    obtain rfl : s1 = s' := by simpa using h
    exact ⟨h1, h2, h3⟩

set_option maxRecDepth 100000 in
/-- C14, at a concrete input: a write to address 5 on a fresh link whose
peer never answers. -/
theorem C14_fail_fast_on_handshake_failure_witness :
    reg_op 250 ROP_WRITE_8 5 [0x42] 1 (init_state wire_silent)
      = some (false, after_sync 250 (init_state wire_silent)) ∧
    txBytes (after_sync 250 (init_state wire_silent)).trace = List.replicate 24 0xFF ++ [0xAA] ∧
    (after_sync 250 (init_state wire_silent)).sync_state = false ∧
    (after_sync 250 (init_state wire_silent)).idx_in = 0 :=
  have h := C14_fail_fast_on_handshake_failure 250 ROP_WRITE_8 5 [0x42] 1
    (init_state wire_silent) (after_sync 250 (init_state wire_silent)) rfl rfl
  ⟨h.1, h.2.1, h.2.2.1, (h.2.2.2 rfl (by decide) (by decide)).1⟩

set_option maxRecDepth 100000 in
/-- C15 fails as stated: with an empty buffer on a silent wire, `UART_getch`
returns `0xFF` after 200 delays of 10 ms, but the watchdog has been cleared
199 times, not 200. -/
theorem C15_watchdog_count_counterexample :
    (synced_state wire_silent).idx_in = (synced_state wire_silent).idx_out ∧
    (UART_getch (synced_state wire_silent)).map
      (fun r => (r.1, r.2.trace.count (Event.delay 10), r.2.trace.count Event.clrwdt))
      = some (0xFF, 200, 199) := by
  decide

set_option maxRecDepth 100000 in
/-- C15, amended: if the buffer is not empty `UART_getch` returns the byte
at the read cursor at once (no delay, no window passes), advances the read
cursor by one modulo 32 and leaves write cursor and buffer as they are; if
it is empty and nothing arrives, `UART_getch` returns `0xFF` with both
cursors unchanged, and what it did is exactly 199 times (delay 10 ms,
watchdog clear), then one more delay of 10 ms: 200 delays, 199 watchdog
clears. -/
theorem C15_byte_reader_contract (s : State) :
    (s.idx_in ≠ s.idx_out →
      ∃ s', UART_getch s = some (s.UART_buffer s.idx_in, s') ∧
        s'.idx_in = (s.idx_in + 1) % 32 ∧ s'.idx_out = s.idx_out ∧
        s'.UART_buffer = s.UART_buffer ∧ s'.trace = s.trace ∧ s'.now = s.now) ∧
    (s.idx_in = s.idx_out → Quiet s 200 →
      ∃ s', UART_getch s = some (0xFF, s') ∧ s'.idx_in = s.idx_in ∧ s'.idx_out = s.idx_out ∧
        s'.UART_buffer = s.UART_buffer ∧
        s'.trace = s.trace ++
          ((List.replicate 199 [Event.delay 10, Event.clrwdt]).flatten ++ [Event.delay 10]) ∧
        (s'.trace.count (Event.delay 10) = s.trace.count (Event.delay 10) + 200) ∧
        (s'.trace.count Event.clrwdt = s.trace.count Event.clrwdt + 199)) := by
  have htr : getch_timeout_trace 200 =
      (List.replicate 199 [Event.delay 10, Event.clrwdt]).flatten ++ [Event.delay 10] := by
    decide
  constructor
  · intro hne
    refine ⟨{ s with idx_in := (s.idx_in + 1) % 256 % BUFFER_SIZE }, UART_getch_ready s hne,
      ?_, rfl, rfl, rfl, rfl⟩
    show (s.idx_in + 1) % 256 % BUFFER_SIZE = (s.idx_in + 1) % 32
    simp only [BUFFER_SIZE]
    omega
  · intro he hq
    obtain ⟨s', h, h1, h2, h3, -, -, -, h7⟩ := UART_getch_quiet s he hq
    rw [htr] at h7
    refine ⟨s', h, h1, h2, h3, h7, ?_, ?_⟩
    · rw [h7, List.count_append]
      congr 1
    · rw [h7, List.count_append]
      congr 1

set_option maxRecDepth 100000 in
/-- C15 amended, at concrete inputs: one buffered byte, and the empty buffer
on a silent wire. -/
theorem C15_byte_reader_contract_witness :
    (∃ s', UART_getch (push_all [0x5A] wrap_state) = some (0x5A, s') ∧
      s'.idx_in = 31 ∧ s'.trace = []) ∧
    (∃ s', UART_getch wrap_state = some (0xFF, s') ∧ s'.idx_in = 30 ∧ s'.idx_out = 30 ∧
      s'.trace.count (Event.delay 10) = 200 ∧ s'.trace.count Event.clrwdt = 199) :=
  ⟨by
    obtain ⟨s', h, h1, -, -, h4, -⟩ :=
      (C15_byte_reader_contract (push_all [0x5A] wrap_state)).1 (by decide)
    exact ⟨s', h, h1, h4⟩,
   by
    obtain ⟨s', h, h1, h2, -, -, h5, h6⟩ :=
      (C15_byte_reader_contract wrap_state).2 rfl (by decide)
    exact ⟨s', h, h1, h2, h5, h6⟩⟩

/-- C17: from an empty buffer, after any number `k` of pushes with no pop in
between, the number of bytes the Byte Reader can pop without waiting is
`k mod 32`; after exactly 32 pushes `UART_kbhit` is false although the 32
slots hold the 32 bytes; after 33 pushes one call of `UART_getch` returns
the 33rd byte at once, and then `UART_kbhit` is false. -/
theorem C17_occupancy_wraps (bytes : List Nat) (s : State) (hp : s.idx_in < 32)
    (he : s.idx_in = s.idx_out) (hb : ∀ b ∈ bytes, b ≤ 255) :
    ready_count 32 (push_all bytes s) = bytes.length % 32 ∧
    (bytes.length = 32 →
      UART_kbhit (push_all bytes s) = false ∧
      ∀ i, i < 32 → (push_all bytes s).UART_buffer ((s.idx_in + i) % 32) = bytes.getD i 0) ∧
    (bytes.length = 33 →
      ready_count 32 (push_all bytes s) = 1 ∧
      ∃ s', UART_getch (push_all bytes s) = some (bytes.getD 32 0, s') ∧
        UART_kbhit s' = false ∧ s'.trace = s.trace ∧ s'.now = s.now) := by
  have hpo : s.idx_out < 32 := by rw [← he]; exact hp
  obtain ⟨h1, h2, -, -, -, h6, h7, h8⟩ := push_all_spec bytes s hpo
  have hsmall : ∀ i, i < bytes.length → bytes.getD i 0 % 256 = bytes.getD i 0 := by
    intro i hi
    have : bytes.getD i 0 ≤ 255 := by
      rw [List.getD_eq_getElem _ _ hi]
      exact hb _ (List.getElem_mem hi)
    omega
  have hcount : ready_count 32 (push_all bytes s) = bytes.length % 32 := by
    rw [ready_count_eq 32 _ (by rw [h2]; exact hp) (by rw [h1]; omega) (by omega), h1, h2, ← he]
    omega
  refine ⟨hcount, ?_, ?_⟩
  · intro hn
    refine ⟨?_, ?_⟩
    · simp only [UART_kbhit, h1, h2, hn, ← he]
      simp
      omega
    · intro i hi
      rw [he, h8 i (by omega) (by omega), hsmall i (by omega)]
  · intro hn
    refine ⟨by rw [hcount, hn], ?_⟩
    have hne : (push_all bytes s).idx_in ≠ (push_all bytes s).idx_out := by
      rw [h1, h2, hn, ← he]; omega
    have hg := UART_getch_ready _ hne
    have hval : (push_all bytes s).UART_buffer (push_all bytes s).idx_in = bytes.getD 32 0 := by
      have := h8 32 (by omega) (by omega)
      rw [hsmall 32 (by omega), ← he, show (s.idx_in + 32) % 32 = s.idx_in by omega] at this
      rw [h2, this]
    rw [hval] at hg
    refine ⟨_, hg, ?_, h7, h6⟩
    simp only [UART_kbhit, h1, h2, hn, ← he, BUFFER_SIZE]
    simp
    omega

/-- C17, at concrete inputs: 32 and 33 pushes into the fresh buffer, and 70
pushes (70 mod 32 = 6). -/
theorem C17_occupancy_wraps_witness :
    ready_count 32 (push_all (List.range' 1 32) (init_state wire_silent)) = 0 ∧
    UART_kbhit (push_all (List.range' 1 32) (init_state wire_silent)) = false ∧
    ready_count 32 (push_all (List.range' 1 33) (init_state wire_silent)) = 1 ∧
    ready_count 32 (push_all (List.range' 1 70) (init_state wire_silent)) = 6 ∧
    ∃ s', UART_getch (push_all (List.range' 1 33) (init_state wire_silent)) = some (33, s') ∧
      UART_kbhit s' = false :=
  have h32 := C17_occupancy_wraps (List.range' 1 32) (init_state wire_silent) (by decide) rfl
    (by decide)
  have h33 := C17_occupancy_wraps (List.range' 1 33) (init_state wire_silent) (by decide) rfl
    (by decide)
  have h70 := C17_occupancy_wraps (List.range' 1 70) (init_state wire_silent) (by decide) rfl
    (by decide)
  ⟨h32.1, (h32.2.1 rfl).1, h33.1, h70.1,
    by
      obtain ⟨s', h, hk, -, -⟩ := (h33.2.2 rfl).2
      exact ⟨s', h, hk⟩⟩

/-- C18: in every state reachable from the initial state by runs of the
byte-arrival handler and calls of the Byte Reader both cursors are in
0..31, so every access `UART_buffer[idx_out]`, `UART_buffer[idx_in]` is in
bounds.  A push changes the write cursor and the slot it writes, not the
read cursor nor any other slot (and a character with framing error changes
nothing).  `UART_getch` leaves the read cursor or advances it by one modulo
32; write cursor and slots after it are exactly what the handler made of
them during the windows that passed, so they are untouched when the call
returns at once or nothing arrives. -/
theorem C18_cursor_invariant_and_frame (s : State) (h : Reachable s) :
    s.idx_in < 32 ∧ s.idx_out < 32 ∧
    (∀ b, (remregs_UART_ISR [⟨b, false⟩] s).idx_in = s.idx_in ∧
      (remregs_UART_ISR [⟨b, false⟩] s).idx_out = (s.idx_out + 1) % 32 ∧
      (remregs_UART_ISR [⟨b, false⟩] s).UART_buffer s.idx_out = b % 256 ∧
      ∀ i, i ≠ s.idx_out → (remregs_UART_ISR [⟨b, false⟩] s).UART_buffer i = s.UART_buffer i) ∧
    (∀ b, remregs_UART_ISR [⟨b, true⟩] s = s) ∧
    (∀ r s', UART_getch s = some (r, s') →
      (s'.idx_in = s.idx_in ∨ s'.idx_in = (s.idx_in + 1) % 32) ∧
      (∃ k, s'.now = s.now + k ∧
        s'.idx_out = (remregs_UART_ISR (arrived s.wire s.now k) s).idx_out ∧
        s'.UART_buffer = (remregs_UART_ISR (arrived s.wire s.now k) s).UART_buffer) ∧
      ((s.idx_in ≠ s.idx_out ∨ Quiet s 200) →
        s'.idx_out = s.idx_out ∧ s'.UART_buffer = s.UART_buffer)) := by
  obtain ⟨hi, ho⟩ := Reachable_cursors s h
  refine ⟨hi, ho, ?_, ?_, ?_⟩
  · intro b
    rw [push_one]
    refine ⟨rfl, ?_, ?_, ?_⟩
    · show (s.idx_out + 1) % 256 % BUFFER_SIZE = (s.idx_out + 1) % 32
      simp only [BUFFER_SIZE]
      omega
    · simp
    · intro i hne
      simp [hne]
  · intro b
    simp [remregs_UART_ISR]
  · intro r s' hg
    obtain ⟨hin, hk⟩ := UART_getch_loop_rx 200 0 s r s' hg
    refine ⟨?_, hk, ?_⟩
    · rcases hin with h1 | h1
      · exact Or.inl h1
      · right
        rw [h1]
        omega
    · intro hq
      by_cases he : s.idx_in = s.idx_out
      · have hq' : Quiet s 200 := by
          rcases hq with h1 | h1
          · exact absurd he h1
          · exact h1
        obtain ⟨s2, h2, -, h4, h5, -⟩ := UART_getch_quiet s he hq'
        rw [hg] at h2
        simp only [Option.some.injEq, Prod.mk.injEq] at h2
        obtain ⟨-, rfl⟩ := h2
        exact ⟨h4, h5⟩
      · have h2 := UART_getch_ready s he
        rw [hg] at h2
        simp only [Option.some.injEq, Prod.mk.injEq] at h2
        obtain ⟨-, rfl⟩ := h2
        exact ⟨rfl, rfl⟩

/-- C18, at a concrete input: the state after two bytes have arrived in the
fresh buffer and the Byte Reader has been called once. -/
theorem C18_cursor_invariant_and_frame_witness :
    (after_getch (remregs_UART_ISR [⟨1, false⟩, ⟨2, false⟩] (init_state wire_silent))).idx_in
      < 32 ∧
    (after_getch (remregs_UART_ISR [⟨1, false⟩, ⟨2, false⟩] (init_state wire_silent))).idx_out
      < 32 :=
  have h := C18_cursor_invariant_and_frame
    (after_getch (remregs_UART_ISR [⟨1, false⟩, ⟨2, false⟩] (init_state wire_silent)))
    (Reachable.getch _ _ 1
      (Reachable.isr _ [⟨1, false⟩, ⟨2, false⟩] (Reachable.init (init_state wire_silent) rfl rfl))
      rfl)
  ⟨h.1, h.2.1⟩

/-- C19: for every opcode in 0..7 and address in 0..1023, `reg_op` on a
Synced link returns, and the first two bytes it has transmitted are
`h = (op << 2) | ((addr & 0x300) >> 8)` and `a = addr & 0xFF` themselves
(narrowing to 8 bits changes nothing), with `h <= 31`, `h >> 2 = op` and
`((h & 3) << 8) | a = addr`; so any other call of `reg_op` in range that
transmits the same two bytes first has the same opcode and address; and for
any address at all `reg_op` does what it does for the address modulo 1024. -/
theorem C19_header_decodable (fuel op addr : Nat) (data : List Nat) (len : Nat) (s : State)
    (hop : op ≤ 7) (haddr : addr ≤ 1023) (hs : s.sync_state = true)
    (hlen : len ≤ data.length) :
    ∃ ok s' h a rest, reg_op fuel op addr data len s = some (ok, s') ∧
      txBytes s'.trace = txBytes s.trace ++ h :: a :: rest ∧
      h = (op <<< 2) ||| ((addr &&& 0x300) >>> 8) ∧ a = addr &&& 0xFF ∧
      h ≤ 31 ∧ h >>> 2 = op ∧ ((h &&& 3) <<< 8) ||| a = addr ∧
      (∀ (fuel' op' addr' : Nat) (data' : List Nat) (len' : Nat) (t : State) (ok' : Bool)
          (t' : State) (rest' : List Nat),
        op' ≤ 7 → addr' ≤ 1023 → t.sync_state = true → len' ≤ data'.length →
        reg_op fuel' op' addr' data' len' t = some (ok', t') →
        txBytes t'.trace = txBytes t.trace ++ h :: a :: rest' →
        op' = op ∧ addr' = addr) ∧
      (∀ big, reg_op fuel op big data len s = reg_op fuel op (big % 1024) data len s) := by
  obtain ⟨ok, s', rest, hcall, htx⟩ := reg_op_sends_header fuel op addr data len s hop hs hlen
  have h1 := (reg_op_header_arith op addr hop).1
  have h2 := addr_bits_7_0 addr
  refine ⟨ok, s', (op <<< 2) ||| ((addr &&& 0x300) >>> 8), addr &&& 0xFF, rest, hcall, ?_,
    rfl, rfl, ?_, ?_, ?_, ?_, ?_⟩
  · rw [htx, h1, h2]
  · rw [h1]; omega
  · rw [h1, Nat.shiftRight_eq_div_pow]; omega
  · rw [h1, show (3 : Nat) = 2 ^ 2 - 1 from rfl, Nat.and_pow_two_sub_one_eq_mod, h2,
      lor_shift8_small _ (Nat.mod_lt _ (by decide)) _ (Nat.mod_lt _ (by decide))]
    omega
  · intro fuel' op' addr' data' len' t ok' t' rest' hop' haddr' ht hlen' hcall' htx'
    obtain ⟨ok2, t2, rest2, hc2, htx2⟩ :=
      reg_op_sends_header fuel' op' addr' data' len' t hop' ht hlen'
    rw [hcall'] at hc2
    simp only [Option.some.injEq, Prod.mk.injEq] at hc2
    obtain ⟨-, rfl⟩ := hc2
    rw [htx2, h1, h2] at htx'
    have := List.append_cancel_left htx'
    simp only [List.cons.injEq] at this
    obtain ⟨e1, e2, -⟩ := this
    constructor <;> omega
  · intro big
    exact reg_op_addr_mod fuel op big data len s

/-- C19, at a concrete input: the 16-bit write of `0x1234` to address
`0x2A5` goes out as `0x16, 0xA5, 0x34, 0x12`, and the same call with
address `0x2A5 + 1024` does the same. -/
theorem C19_header_decodable_witness :
    (∃ ok s' rest,
      reg_op 0 ROP_WRITE_16 0x2A5 [0x34, 0x12] 2 (synced_state (wire_at 4 [ACK]))
        = some (ok, s') ∧
      txBytes s'.trace = 0x16 :: 0xA5 :: rest) ∧
    reg_op 0 ROP_WRITE_16 (0x2A5 + 1024) [0x34, 0x12] 2 (synced_state (wire_at 4 [ACK]))
      = reg_op 0 ROP_WRITE_16 0x2A5 [0x34, 0x12] 2 (synced_state (wire_at 4 [ACK])) ∧
    (reg_op 0 ROP_WRITE_16 (0x2A5 + 1024) [0x34, 0x12] 2
        (synced_state (wire_at 4 [ACK]))).map (fun r => txBytes r.2.trace)
      = some [0x16, 0xA5, 0x34, 0x12] := by
  obtain ⟨ok, s', h, a, rest, hcall, htx, hh, ha, -, -, -, -, hbig⟩ :=
    C19_header_decodable 0 ROP_WRITE_16 0x2A5 [0x34, 0x12] 2 (synced_state (wire_at 4 [ACK]))
      (by decide) (by decide) rfl (by decide)
  refine ⟨⟨ok, s', rest, hcall, ?_⟩, hbig (0x2A5 + 1024), by decide⟩
  rw [htx, hh, ha]
  rfl

set_option maxRecDepth 100000 in
/-- C16 fails as stated: against a peer that sends ten bytes `0x00`, one per
poll, `remregs_sync` returns after 260 polling iterations, not 250; and
against the peer that delivers such a byte before every poll, for ever, no
poll finds the buffer empty and it does not return at all. -/
theorem C16_unbounded_wait_counterexample :
    ((remregs_sync 300 (init_state (wire_garbage 10))).map
      (fun r => (r.1, r.2.trace.count (Event.delay 1))) = some (false, 260)) ∧
    ¬ ∃ fuel, remregs_sync fuel (init_state wire_flood) ≠ none := by
  refine ⟨by decide, ?_⟩
  rintro ⟨fuel, h⟩
  exact h (remregs_sync_flood fuel)

/-- C16, amended: for every peer that sends finitely many bytes (none from
window `s.now + K` on) `remregs_sync` returns, cursors in range and fuel
enough.  After the preamble it has done nothing but polls (delay 1 ms) and
watchdog clears; the polls that found the buffer empty, each followed by one
watchdog clear, number at most 250, and exactly 250 when it reports
failure; the polls that found a byte are not counted against that ceiling,
so all polls together number at most 250 plus the bytes buffered at the
start plus the bytes that arrive.  And for every peer, from any state:
whenever `remregs_sync` returns it has done nothing but polls and watchdog
clears after the preamble, with at most 250 polls that found the buffer
empty, exactly 250 when it reports failure. -/
theorem C16_empty_polls_bounded (fuel K : Nat) (s : State) (hi : s.idx_in < 32)
    (ho : s.idx_out < 32) (hfin : ∀ t, s.now + K ≤ t → (s.wire t).chars = [])
    (hf : 250 + (occupancy s + (arrived s.wire s.now K).length) ≤ fuel) :
    (∃ ok s' polls, remregs_sync fuel s = some (ok, s') ∧
      s'.trace = s.trace ++ List.replicate 24 (Event.tx 0xFF) ++ [Event.tx 0xAA] ++ polls ∧
      (∀ e ∈ polls, e = Event.delay 1 ∨ e = Event.clrwdt) ∧
      polls.count Event.clrwdt ≤ 250 ∧
      (ok = false → polls.count Event.clrwdt = 250) ∧
      polls.count (Event.delay 1)
        ≤ polls.count Event.clrwdt + (occupancy s + (arrived s.wire s.now K).length)) ∧
    (∀ (fuel0 : Nat) (s0 : State) (ok : Bool) (s' : State),
      remregs_sync fuel0 s0 = some (ok, s') →
      ∃ polls,
        s'.trace = s0.trace ++ List.replicate 24 (Event.tx 0xFF) ++ [Event.tx 0xAA] ++ polls ∧
        (∀ e ∈ polls, e = Event.delay 1 ∨ e = Event.clrwdt) ∧
        polls.count Event.clrwdt ≤ 250 ∧
        (ok = false → polls.count Event.clrwdt = 250) ∧
        polls.count Event.clrwdt ≤ polls.count (Event.delay 1)) := by
  refine ⟨?_, fun fuel0 s0 ok s' h => remregs_sync_empty_polls fuel0 s0 ok s' h⟩
  have hr := UART_putch_rep_frame 24 0xff { s with sync_state := false }
  obtain ⟨r1, r2, r3, r4⟩ := UART_putch_rep_step 24 0xff { s with sync_state := false } K hi ho hfin
  have hp := UART_putch_frame 0xaa (UART_putch_rep 24 0xff { s with sync_state := false })
  obtain ⟨p1, p2, p3, p4⟩ := UART_putch_step 0xaa
    (UART_putch_rep 24 0xff { s with sync_state := false }) (K - 24) r1 r2 r3
  have hpot : occupancy ({ s with sync_state := false } : State) +
      (arrived ({ s with sync_state := false } : State).wire
        ({ s with sync_state := false } : State).now K).length
      = occupancy s + (arrived s.wire s.now K).length := rfl
  rw [hpot] at r4
  obtain ⟨ok, s', polls, hl, htr, hc1, hc2, hc3, hc4⟩ :=
    remregs_sync_loop_bounded fuel 0 0 (K - 24 - 1)
      (UART_putch 0xaa (UART_putch_rep 24 0xff { s with sync_state := false }))
      (by decide) p1 p2 p3 (by omega)
  refine ⟨ok, s', polls, ?_, ?_, hc4, by omega, ?_, by omega⟩
  · unfold remregs_sync
    exact hl
  · rw [htr, hp.2.2.2.2, hr.2.2.2.2]
  · intro h
    have := hc2 h
    omega

set_option maxRecDepth 100000 in
/-- C16 amended, at a concrete input: the peer that sends ten bytes `0x00`
after the preamble. -/
theorem C16_empty_polls_bounded_witness :
    ∃ ok s' polls, remregs_sync 300 (init_state (wire_garbage 10)) = some (ok, s') ∧
      s'.trace = List.replicate 24 (Event.tx 0xFF) ++ [Event.tx 0xAA] ++ polls ∧
      polls.count Event.clrwdt ≤ 250 ∧
      polls.count (Event.delay 1) ≤ polls.count Event.clrwdt + 10 := by
  obtain ⟨ok, s', polls, h, htr, -, hc1, -, hc3⟩ :=
    (C16_empty_polls_bounded 300 35 (init_state (wire_garbage 10)) (by decide) (by decide)
      (by
        intro t ht
        have h1 : (init_state (wire_garbage 10)).now = 0 := rfl
        rw [h1] at ht
        have h2 : ¬ (25 ≤ t ∧ t < 25 + 10) := by omega
        simp [init_state, wire_garbage, h2])
      (by decide)).1
  have e : occupancy (init_state (wire_garbage 10)) +
      (arrived (init_state (wire_garbage 10)).wire (init_state (wire_garbage 10)).now 35).length
      = 10 := by decide
  rw [e] at hc3
  exact ⟨ok, s', polls, h, htr, hc1, hc3⟩

end Remregs
